import Mathlib

/-!
# PlottingCalculator: the registry, colour allocation, sampling loop and calculator of `script.js`

A shallow embedding of `src/script.js`.  The page state the script reads and
writes (the module-level variables `nextColorIndex`, `functions`,
`plotChart.data.datasets` and the DOM fields it touches) is an explicit record
that is passed through every function.

The numbers of the script are JavaScript numbers.  The embedding does not fix
their arithmetic: the type `F` of numbers and the operations the script applies
to them (`-`, `/`, `+`, `<=`, `>=`) are a parameter `Arith F`, so that a
statement proved for every `Arith F` holds for rounding arithmetic with `NaN`
as well.  `ratArith` is exact rational arithmetic, and `nanArith` is exact
arithmetic with a `NaN`.  The expression library (`math.compile`,
`compiled.evaluate`, `math.evaluate`) is external and is a parameter too.
A `for` loop that may run forever is modelled with an iteration budget and
returns `none` when the budget is used up before the loop exits.
-/

namespace PlottingCalculator

/-! ## Numbers, values and the external expression library -/

/-- The arithmetic of the numbers of the script: the literal of a natural number, the operators
`+`, `-`, `/`, `<=`, `<` and `>=`.  The one law asked of it is that `a < b` excludes `a >= b`. -/
structure Arith (F : Type) where
  ofNat : Nat → F
  add : F → F → F
  sub : F → F → F
  div : F → F → F
  le : F → F → Bool
  lt : F → F → Bool
  ge : F → F → Bool
  lt_not_ge : ∀ a b : F, lt a b = true → ge a b = false

/-- Exact rational arithmetic. -/
def ratArith : Arith ℚ where
  ofNat := fun n => (n : ℚ)
  add := fun a b => a + b
  sub := fun a b => a - b
  div := fun a b => a / b
  le := fun a b => decide (a ≤ b)
  lt := fun a b => decide (a < b)
  ge := fun a b => decide (a ≥ b)
  lt_not_ge := fun a b h => by
    have h1 : a < b := of_decide_eq_true h
    exact decide_eq_false (not_le.mpr h1)

/-- Exact rational arithmetic with a `NaN` (`none`), which is what `parseFloat` returns for an
empty field: an operation on `NaN` gives `NaN` and a comparison with `NaN` is false. -/
def nanArith : Arith (Option ℚ) where
  ofNat := fun n => some (n : ℚ)
  add := fun a b => match a, b with
    | some p, some q => some (p + q)
    | _, _ => none
  sub := fun a b => match a, b with
    | some p, some q => some (p - q)
    | _, _ => none
  div := fun a b => match a, b with
    | some p, some q => some (p / q)
    | _, _ => none
  le := fun a b => match a, b with
    | some p, some q => decide (p ≤ q)
    | _, _ => false
  lt := fun a b => match a, b with
    | some p, some q => decide (p < q)
    | _, _ => false
  ge := fun a b => match a, b with
    | some p, some q => decide (p ≥ q)
    | _, _ => false
  lt_not_ge := fun a b h => by
    cases a with
    | none => rfl
    | some p =>
      cases b with
      | none => rfl
      | some q =>
        have h1 : p < q := of_decide_eq_true h
        exact decide_eq_false (not_le.mpr h1)

/-- A result of an evaluation: a finite number, `NaN`, `Infinity`, `-Infinity`, or a result that
is not a number (a boolean, a string, an object), for which `asNaN` and `asFinite` are what the
globals `isNaN` and `isFinite` answer once they have coerced it to a number. -/
inductive Value (F : Type) where
  | num (q : F)
  | nan
  | posInf
  | negInf
  | other (text : String) (asNaN asFinite : Bool)

/-- The global `isNaN`. -/
def isNaN {F : Type} : Value F → Bool
  | .nan => true
  | .other _ asNaN _ => asNaN
  | _ => false

/-- The global `isFinite`. -/
def isFinite {F : Type} : Value F → Bool
  | .num _ => true
  | .other _ _ asFinite => asFinite
  | _ => false

/-- The external expression library.  `E` is the type of compiled handles and `V` the type of
results of the one-shot evaluation; a thrown exception is `Except.error` carrying `error.message`.
`compile` is `math.compile`, `evaluateAt c x` is `c.evaluate` with `x` bound to `x`, `evaluate` is
`math.evaluate` and `toStr` is the `toString()` method call on a result. -/
structure MathLib (F E V : Type) where
  compile : String → Except String E
  evaluateAt : E → F → Except String (Value F)
  evaluate : String → Except String V
  toStr : V → Except String String

/-! ## Page state -/

/-- The constant `colorPalette`. -/
def colorPalette : List String :=
  ["#4285F4", "#EA4335", "#FBBC05", "#34A853", "#FF9800",
   "#9C27B0", "#00BCD4", "#795548", "#607D8B", "#E91E63"]

/-- The expression `colorPalette[i % colorPalette.length]`. -/
def paletteAt (i : Nat) : String :=
  colorPalette.get ⟨i % colorPalette.length, Nat.mod_lt _ (by decide)⟩

/-- An element of the array `functions`. -/
structure FunctionEntry (E : Type) where
  expression : String
  compiled : E
  color : String

/-- A point with fields `x` and `y`, as pushed by the sampling loop. -/
structure Point (F : Type) where
  x : F
  y : Value F

/-- A dataset pushed to `plotChart.data.datasets`. -/
structure Dataset (F : Type) where
  label : String
  data : List (Point F)
  borderColor : String
  backgroundColor : String
  pointRadius : Nat
  borderWidth : Nat
  tension : ℚ

/-- A `.function-item` element of the visual list.  `index` is the constant captured by the
closure of its remove button, `dataIndex` its `data-index` attribute, `color` the background of
its colour indicator and `text` the text of its expression element. -/
structure FunctionItem where
  index : Nat
  dataIndex : Nat
  color : String
  text : String
  deriving DecidableEq, Repr

/-- The state of the page: the module-level variables and the DOM fields the script uses.
`xMin` and `xMax` are the numbers `parseFloat` reads from the two domain fields. -/
structure State (F E : Type) where
  nextColorIndex : Nat
  functions : List (FunctionEntry E)
  datasets : List (Dataset F)
  expressionInput : String
  xMin : F
  xMax : F
  expressionError : String
  functionList : List FunctionItem
  calcExpression : String
  result : String

/-- The state when the script is loaded and the chart initialised: counter 0, no function,
no dataset, an empty visual list; the input fields hold what the page gives them. -/
def initialState {F : Type} (E : Type) (expression : String) (xMin xMax : F)
    (calcText : String) : State F E :=
  { nextColorIndex := 0, functions := [], datasets := [],
    expressionInput := expression, xMin := xMin, xMax := xMax,
    expressionError := "", functionList := [], calcExpression := calcText, result := "" }

/-- The white space and line terminators that the method `trim()` strips: tab, line feed,
vertical tab, form feed, carriage return, space, no-break space, the Unicode space separators,
the line and paragraph separators and the byte order mark. -/
def isTrimmed (ch : Char) : Bool :=
  let n := ch.toNat
  n = 0x09 || n = 0x0A || n = 0x0B || n = 0x0C || n = 0x0D || n = 0x20 || n = 0xA0 ||
    n = 0x1680 || (0x2000 ≤ n && n ≤ 0x200A) || n = 0x2028 || n = 0x2029 || n = 0x202F ||
    n = 0x205F || n = 0x3000 || n = 0xFEFF

/-- The method `trim()` on the characters of a string: drop the white space at both ends. -/
def trimChars (cs : List Char) : List Char :=
  ((cs.dropWhile isTrimmed).reverse.dropWhile isTrimmed).reverse

/-- The method `trim()` of a string. -/
def trim (s : String) : String := ⟨trimChars s.data⟩

/-! ## The sampling loop of `updatePlot` -/

/-- The variables of the `for` loop: the scan position `x` and the array `points`. -/
structure LoopState (F : Type) where
  x : F
  points : List (Point F)

/-- The loop condition `x <= xMax`. -/
def loopCond {F : Type} (ar : Arith F) (xMax : F) (st : LoopState F) : Bool := ar.le st.x xMax

/-- One iteration: the `try` block that evaluates at `x` and pushes a valid point, the empty
`catch`, and the update `x += step`. -/
def loopBody {F E V : Type} (ar : Arith F) (lib : MathLib F E V) (c : E) (step : F)
    (st : LoopState F) : LoopState F :=
  { x := ar.add st.x step,
    points :=
      match lib.evaluateAt c st.x with
      | .ok y => if !isNaN y && isFinite y then st.points ++ [⟨st.x, y⟩] else st.points
      | .error _ => st.points }

/-- The `for` loop, run for at most `fuel` iterations: `some points` when the condition becomes
false within the budget, `none` otherwise. -/
def forLoop {F E V : Type} (ar : Arith F) (lib : MathLib F E V) (c : E) (xMax step : F) :
    Nat → LoopState F → Option (List (Point F))
  | 0, st => if loopCond ar xMax st then none else some st.points
  | fuel + 1, st =>
    if loopCond ar xMax st then forLoop ar lib c xMax step fuel (loopBody ar lib c step st)
    else some st.points

/-- The body of the `forEach` callback up to the end of the loop, for a step count `numPoints`:
`step = (xMax - xMin) / numPoints`, `points = []`, `x = xMin`, then the loop. -/
def samplePoints {F E V : Type} (ar : Arith F) (lib : MathLib F E V) (c : E) (xMin xMax : F)
    (numPoints : Nat) (fuel : Nat) : Option (List (Point F)) :=
  forLoop ar lib c xMax (ar.div (ar.sub xMax xMin) (ar.ofNat numPoints)) fuel ⟨xMin, []⟩

/-- The constant `numPoints` of `updatePlot`. -/
def numPoints : Nat := 500

/-- The dataset pushed for one function once its points are computed. -/
def mkDataset {F E : Type} (func : FunctionEntry E) (points : List (Point F)) : Dataset F :=
  { label := "f(x) = " ++ func.expression,
    data := points,
    borderColor := func.color,
    backgroundColor := "transparent",
    pointRadius := 0,
    borderWidth := 2,
    tension := 1 / 10 }

/-- The `forEach` of `updatePlot` over the functions still to visit, pushing to `datasets`. -/
def forEachFunction {F E V : Type} (ar : Arith F) (lib : MathLib F E V) (xMin xMax : F)
    (fuel : Nat) : List (FunctionEntry E) → List (Dataset F) → Option (List (Dataset F))
  | [], datasets => some datasets
  | func :: rest, datasets =>
    match samplePoints ar lib func.compiled xMin xMax numPoints fuel with
    | none => none
    | some points =>
      forEachFunction ar lib xMin xMax fuel rest (datasets ++ [mkDataset func points])

/-- The function `updatePlot`: clear the datasets, read the domain, and push one dataset per
function.  `none` when a scan does not exit within `fuel` iterations. -/
def updatePlot {F E V : Type} (ar : Arith F) (lib : MathLib F E V) (fuel : Nat)
    (s : State F E) : Option (State F E) :=
  match forEachFunction ar lib s.xMin s.xMax fuel s.functions [] with
  | none => none
  | some datasets => some { s with datasets := datasets }

/-! ## `addFunction`, the visual list and its remove buttons -/

/-- The function `showError`. -/
def showError {F E : Type} (message : String) (s : State F E) : State F E :=
  { s with expressionError := message }

/-- The function `clearError`. -/
def clearError {F E : Type} (s : State F E) : State F E :=
  { s with expressionError := "" }

/-- The function `addFunctionToList`: append an item whose remove button captures
`index = functions.length - 1`.  It is called after the push, so the array is not empty. -/
def addFunctionToList {F E : Type} (expression color : String) (s : State F E) : State F E :=
  let index := s.functions.length - 1
  { s with functionList :=
      s.functionList ++
        [{ index := index, dataIndex := index, color := color, text := "f(x) = " ++ expression }] }

/-- Where `addFunction` stands once it has run up to the call `updatePlot()`: it has returned
after showing an error (`rejected`, with the state it leaves), or it has pushed the new entry
and is about to refresh the plot (`pushed`, with the state at that point and the locals
`expressionValue` and `color`). -/
inductive AddStage (F E : Type) where
  | rejected (s : State F E)
  | pushed (s : State F E) (expressionValue color : String)

/-- The first part of `addFunction`, up to the call `updatePlot()`.  The two validations return
early; an exception of `math.compile` or of the trial evaluation is caught and shown. -/
def addFunctionStart {F E V : Type} (ar : Arith F) (lib : MathLib F E V) (s : State F E) :
    AddStage F E :=
  let expressionValue := trim s.expressionInput
  if expressionValue = "" then
    .rejected (showError "Please enter a function expression" s)
  else if ar.ge s.xMin s.xMax then
    .rejected (showError "X Min must be less than X Max" s)
  else
    match lib.compile expressionValue with
    | .error message => .rejected (showError ("Invalid expression: " ++ message) s)
    | .ok compiledExpression =>
      match lib.evaluateAt compiledExpression (ar.ofNat 1) with
      | .error message => .rejected (showError ("Invalid expression: " ++ message) s)
      | .ok _ =>
        let s1 := clearError s
        let color := paletteAt s1.nextColorIndex
        let s2 := { s1 with nextColorIndex := s1.nextColorIndex + 1 }
        .pushed
          { s2 with
            functions := s2.functions ++
              [{ expression := expressionValue, compiled := compiledExpression,
                 color := color }] }
          expressionValue color

/-- The function `addFunction`: its first part, then `updatePlot()`, `addFunctionToList` and the
clearing of the input.  `none` when the refresh does not return within the budget. -/
def addFunction {F E V : Type} (ar : Arith F) (lib : MathLib F E V) (fuel : Nat)
    (s : State F E) : Option (State F E) :=
  match addFunctionStart ar lib s with
  | .rejected t => some t
  | .pushed s3 expressionValue color =>
    match updatePlot ar lib fuel s3 with
    | none => none
    | some s4 =>
      let s5 := addFunctionToList expressionValue color s4
      some { s5 with expressionInput := "" }

/-- The renumbering `items.forEach((item, i) => item.setAttribute('data-index', i))`. -/
def renumber : Nat → List FunctionItem → List FunctionItem
  | _, [] => []
  | i, item :: items => { item with dataIndex := i } :: renumber (i + 1) items

/-- The click listener of the remove button of the item at position `pos` of the visual list:
`functions.splice(index, 1)` with the captured `index`, `updatePlot()`, removal of the item
from the list and renumbering of the `data-index` attributes.  A position without an item has
no button. -/
def removeClick {F E V : Type} (ar : Arith F) (lib : MathLib F E V) (fuel : Nat) (pos : Nat)
    (s : State F E) : Option (State F E) :=
  match s.functionList.get? pos with
  | none => some s
  | some functionItem =>
    let s1 := { s with functions := s.functions.eraseIdx functionItem.index }
    match updatePlot ar lib fuel s1 with
    | none => none
    | some s2 => some { s2 with functionList := renumber 0 (s2.functionList.eraseIdx pos) }

/-! ## `calculate` -/

/-- The function `calculate`.  The result is `Except.ok` when the function returns normally and
`Except.error` when an exception leaves it. -/
def calculate {F E V : Type} (lib : MathLib F E V) (s : State F E) :
    Except String (State F E) :=
  let expression := trim s.calcExpression
  if expression = "" then
    pure { s with result := "Please enter an expression" }
  else
    tryCatch
      (do
        let result ← lib.evaluate expression
        let str ← lib.toStr result
        pure { s with result := str })
      (fun message => pure { s with result := "Error: " ++ message })

/-! ## Sequences of user actions -/

/-- A user action on the page. -/
inductive Event (F : Type) where
  | typeExpression (text : String)
  | typeXMin (q : F)
  | typeXMax (q : F)
  | clickAdd
  | clickRemove (pos : Nat)

/-- The effect of one user action. -/
def step {F E V : Type} (ar : Arith F) (lib : MathLib F E V) (fuel : Nat) (s : State F E) :
    Event F → Option (State F E)
  | .typeExpression text => some { s with expressionInput := text }
  | .typeXMin q => some { s with xMin := q }
  | .typeXMax q => some { s with xMax := q }
  | .clickAdd => addFunction ar lib fuel s
  | .clickRemove pos => removeClick ar lib fuel pos s

/-- The colour given out by an action that went from `s` to `t`: the colour of the last entry
when the action is a click on the add button that made the registry one entry longer. -/
def assigned {F E : Type} (s t : State F E) : Event F → List String
  | .clickAdd =>
    if t.functions.length = s.functions.length + 1 then
      (t.functions.getLast?.map (fun func => func.color)).toList
    else []
  | _ => []

/-- Run a sequence of user actions; the second component lists, in order, the colours given to
the entries created by the successful adds. -/
def run {F E V : Type} (ar : Arith F) (lib : MathLib F E V) (fuel : Nat) :
    List (Event F) → State F E → Option (State F E × List String)
  | [], s => some (s, [])
  | e :: es, s =>
    match step ar lib fuel s e with
    | none => none
    | some t =>
      match run ar lib fuel es t with
      | none => none
      | some (u, log) => some (u, assigned s t e ++ log)

/-! ## A small expression library for concrete runs -/

/-- Compiled handles of the small library. -/
inductive ToyExpr where
  | square
  | reciprocal
  | const (q : ℚ)
  | symbol
  deriving DecidableEq, Repr

/-- The small library: `x^2`, `1/x` (which is `Infinity` at 0), the constants `a`, `b`, `c`, and
`y`, which compiles but throws when evaluated; every other text is a syntax error.  The one-shot
evaluation knows `1+1`; of the empty text it makes `undefined` (`none`), which has no method
`toString`. -/
def toyLib : MathLib ℚ ToyExpr (Option String) where
  compile := fun text =>
    if text = "x^2" then .ok .square
    else if text = "1/x" then .ok .reciprocal
    else if text = "a" then .ok (.const 1)
    else if text = "b" then .ok (.const 2)
    else if text = "c" then .ok (.const 3)
    else if text = "y" then .ok .symbol
    else .error "Unexpected end of expression"
  evaluateAt := fun c x =>
    match c with
    | .square => .ok (.num (x * x))
    | .reciprocal => if x = 0 then .ok .posInf else .ok (.num (1 / x))
    | .const q => .ok (.num q)
    | .symbol => .error "Undefined symbol y"
  evaluate := fun text =>
    if text = "1+1" then .ok (some "2")
    else if text = "" then .ok none
    else .error "Unexpected end of expression"
  toStr := fun v =>
    match v with
    | some str => .ok str
    | none => .error "Cannot read properties of undefined"

/-- The small library on numbers with a `NaN`: an evaluation at `NaN` gives `NaN`. -/
def toyLibNaN : MathLib (Option ℚ) ToyExpr (Option String) where
  compile := toyLib.compile
  evaluateAt := fun c x =>
    match x with
    | none => .ok .nan
    | some q =>
      match toyLib.evaluateAt c q with
      | .ok (.num r) => .ok (.num (some r))
      | .ok .nan => .ok .nan
      | .ok .posInf => .ok .posInf
      | .ok .negInf => .ok .negInf
      | .ok (.other text asNaN asFinite) => .ok (.other text asNaN asFinite)
      | .error message => .error message
  evaluate := toyLib.evaluate
  toStr := toyLib.toStr

/-! ## Reference descriptions of the scan -/

/-- The value of the loop variable after `k` updates `x += step` from `xMin`. -/
def scanPoint {F : Type} (ar : Arith F) (xMin step : F) (k : Nat) : F :=
  (fun x => ar.add x step)^[k] xMin

/-- The `i`-th point of the scan grid of a domain cut in `n` steps: `xMin + i * step`. -/
def gridPoint (xMin xMax : ℚ) (n i : Nat) : ℚ := xMin + i * ((xMax - xMin) / n)

/-- The sample a scan point contributes: nothing when the evaluation throws, nothing when its
result is `NaN` or not finite, and otherwise the pair of `x` and the result. -/
def validPoint {F E V : Type} (lib : MathLib F E V) (c : E) (x : F) : Option (Point F) :=
  match lib.evaluateAt c x with
  | .error _ => none
  | .ok y => if isNaN y = true ∨ isFinite y = false then none else some ⟨x, y⟩

/-- The series of a function over a domain cut in `n` steps: the valid samples of the grid points
`0 .. n`, in that order. -/
def gridSeries {E V : Type} (lib : MathLib ℚ E V) (c : E) (xMin xMax : ℚ) (n : Nat) :
    List (Point ℚ) :=
  (List.range (n + 1)).filterMap (fun i => validPoint lib c (gridPoint xMin xMax n i))

/-- The four conditions under which `addFunction` is said to fail: the trimmed expression text
is empty, `xMin >= xMax`, compiling the trimmed text throws, or the trial evaluation at
`x = 1` throws. -/
def addRejects {F E V : Type} (ar : Arith F) (lib : MathLib F E V) (s : State F E) : Prop :=
  trim s.expressionInput = "" ∨ ar.ge s.xMin s.xMax = true ∨
    (∃ m, lib.compile (trim s.expressionInput) = .error m) ∨
    (∃ c m, lib.compile (trim s.expressionInput) = .ok c ∧
      lib.evaluateAt c (ar.ofNat 1) = .error m)

/-- The state of `addFunction` at the call `updatePlot()`: the error cleared, the counter
advanced and the entry pushed. -/
def pushedState {F E : Type} (s : State F E) (c : E) : State F E :=
  { s with
    expressionError := "",
    nextColorIndex := s.nextColorIndex + 1,
    functions := s.functions ++
      [{ expression := trim s.expressionInput, compiled := c,
         color := paletteAt s.nextColorIndex }] }

/-! ## The sampling loop: what holds in every arithmetic -/

theorem loopBody_points {F E V : Type} (ar : Arith F) (lib : MathLib F E V) (c : E) (step : F)
    (st : LoopState F) :
    (loopBody ar lib c step st).points = st.points ++ (validPoint lib c st.x).toList := by
  unfold loopBody validPoint
  cases h : lib.evaluateAt c st.x with
  | error m => simp
  | ok y =>
    cases hn : isNaN y <;> cases hf : isFinite y <;> simp [hn, hf]

theorem loopBody_x {F E V : Type} (ar : Arith F) (lib : MathLib F E V) (c : E) (step : F)
    (st : LoopState F) : (loopBody ar lib c step st).x = ar.add st.x step := rfl

theorem forLoop_exit {F E V : Type} (ar : Arith F) (lib : MathLib F E V) (c : E)
    (xMax step : F) (fuel : Nat) (st : LoopState F) (h : ar.le st.x xMax = false) :
    forLoop ar lib c xMax step fuel st = some st.points := by
  have hc : loopCond ar xMax st = false := h
  cases fuel <;> simp [forLoop, hc]

theorem scanPoint_succ {F : Type} (ar : Arith F) (x step : F) (k : Nat) :
    scanPoint ar (ar.add x step) step k = scanPoint ar x step (k + 1) := by
  unfold scanPoint
  rw [Function.iterate_succ_apply]

theorem range_succ_filterMap {β : Type} (f : Nat → Option β) (k : Nat) :
    (List.range (k + 1)).filterMap f =
      (f 0).toList ++ (List.range k).filterMap (fun i => f (i + 1)) := by
  rw [List.range_succ_eq_map, List.filterMap_cons, List.filterMap_map]
  cases f 0 <;> rfl

/-- The loop exits within the budget exactly when the condition fails at one of the first
`fuel + 1` scan points; the points are then the valid samples of the scan points before it. -/
theorem forLoop_eq_some_iff {F E V : Type} (ar : Arith F) (lib : MathLib F E V) (c : E)
    (xMax step : F) :
    ∀ (fuel : Nat) (st : LoopState F) (pts : List (Point F)),
      forLoop ar lib c xMax step fuel st = some pts ↔
        ∃ k, k ≤ fuel ∧ (∀ i, i < k → ar.le (scanPoint ar st.x step i) xMax = true) ∧
          ar.le (scanPoint ar st.x step k) xMax = false ∧
          pts = st.points ++
            (List.range k).filterMap (fun i => validPoint lib c (scanPoint ar st.x step i)) := by
  intro fuel
  induction fuel with
  | zero =>
    intro st pts
    cases hc : ar.le st.x xMax with
    | false =>
      have hc2 : loopCond ar xMax st = false := hc
      simp only [forLoop, hc2]
      constructor
      · intro h
        exact ⟨0, le_refl 0, fun i hi => absurd hi (Nat.not_lt_zero i), hc,
          by simpa using (Option.some.inj h).symm⟩
      · rintro ⟨k, hk, -, -, hp⟩
        have hk0 : k = 0 := by omega
        subst hk0
        simp at hp
        simp [hp]
    | true =>
      have hc2 : loopCond ar xMax st = true := hc
      simp only [forLoop, hc2]
      constructor
      · intro h; simp at h
      · rintro ⟨k, hk, -, hex, -⟩
        have hk0 : k = 0 := by omega
        subst hk0
        have hx : scanPoint ar st.x step 0 = st.x := rfl
        rw [hx, hc] at hex
        cases hex
  | succ f ih =>
    intro st pts
    cases hc : ar.le st.x xMax with
    | false =>
      have hc2 : loopCond ar xMax st = false := hc
      simp only [forLoop, hc2]
      constructor
      · intro h
        exact ⟨0, Nat.zero_le _, fun i hi => absurd hi (Nat.not_lt_zero i), hc,
          by simpa using (Option.some.inj h).symm⟩
      · rintro ⟨k, -, hall, -, hp⟩
        have hk0 : k = 0 := by
          by_contra hne
          have h0 := hall 0 (Nat.pos_of_ne_zero hne)
          have hx : scanPoint ar st.x step 0 = st.x := rfl
          rw [hx, hc] at h0
          cases h0
        subst hk0
        simp at hp
        simp [hp]
    | true =>
      have hc2 : loopCond ar xMax st = true := hc
      simp only [forLoop, hc2, if_true]
      rw [ih (loopBody ar lib c step st) pts, loopBody_x, loopBody_points]
      constructor
      · rintro ⟨k, hk, hall, hex, hp⟩
        refine ⟨k + 1, by omega, fun i hi => ?_, ?_, ?_⟩
        · cases i with
          | zero => exact hc
          | succ j =>
            rw [← scanPoint_succ]
            exact hall j (by omega)
        · rw [← scanPoint_succ]; exact hex
        · rw [hp, range_succ_filterMap, List.append_assoc]
          simp only [scanPoint_succ]
          rfl
      · rintro ⟨k, hk, hall, hex, hp⟩
        cases k with
        | zero =>
          have hx : scanPoint ar st.x step 0 = st.x := rfl
          rw [hx, hc] at hex
          cases hex
        | succ j =>
          refine ⟨j, by omega, fun i hi => ?_, ?_, ?_⟩
          · rw [scanPoint_succ]; exact hall (i + 1) (by omega)
          · rw [scanPoint_succ]; exact hex
          · rw [hp, range_succ_filterMap, List.append_assoc]
            simp only [scanPoint_succ]
            rfl

/-! ## The sampling loop in exact arithmetic follows the grid -/

theorem forLoop_grid {E V : Type} (lib : MathLib ℚ E V) (c : E) (x0 step : ℚ)
    (hstep : 0 < step) (n : Nat) :
    ∀ (m k fuel : Nat) (pts : List (Point ℚ)), k + m = n + 1 → m ≤ fuel →
      forLoop ratArith lib c (x0 + n * step) step fuel ⟨x0 + k * step, pts⟩ =
        some (pts ++ (List.range' k m).filterMap
          (fun (i : Nat) => validPoint lib c (x0 + (i : ℚ) * step))) := by
  intro m
  induction m with
  | zero =>
    intro k fuel pts hk _
    have hlt : x0 + (n : ℚ) * step < x0 + (k : ℚ) * step := by
      have : (n : ℚ) < (k : ℚ) := by exact_mod_cast (by omega : n < k)
      nlinarith
    have hle : ratArith.le (x0 + (k : ℚ) * step) (x0 + (n : ℚ) * step) = false :=
      decide_eq_false (not_le.mpr hlt)
    simpa using forLoop_exit ratArith lib c _ step fuel ⟨x0 + k * step, pts⟩ hle
  | succ m ih =>
    intro k fuel pts hk hfuel
    obtain ⟨f, rfl⟩ : ∃ f, fuel = f + 1 := ⟨fuel - 1, by omega⟩
    have hle : x0 + (k : ℚ) * step ≤ x0 + (n : ℚ) * step := by
      have : (k : ℚ) ≤ (n : ℚ) := by exact_mod_cast (by omega : k ≤ n)
      nlinarith
    have hc : loopCond ratArith (x0 + n * step) ⟨x0 + k * step, pts⟩ = true :=
      decide_eq_true hle
    have hx : x0 + (k : ℚ) * step + step = x0 + ((k + 1 : Nat) : ℚ) * step := by
      push_cast; ring
    have hb : loopBody ratArith lib c step ⟨x0 + k * step, pts⟩ =
        ⟨x0 + ((k + 1 : Nat) : ℚ) * step,
          pts ++ (validPoint lib c (x0 + k * step)).toList⟩ := by
      have h1 := loopBody_points ratArith lib c step ⟨x0 + k * step, pts⟩
      have h2 : (loopBody ratArith lib c step ⟨x0 + k * step, pts⟩).x =
          x0 + k * step + step := rfl
      cases hlb : loopBody ratArith lib c step ⟨x0 + k * step, pts⟩ with
      | mk x p =>
        rw [hlb] at h1 h2
        simp only at h1 h2
        rw [h1, h2, hx]
    rw [forLoop, if_pos hc, hb, ih (k + 1) f _ (by omega) (by omega)]
    rw [List.range'_succ, List.filterMap_cons]
    cases validPoint lib c (x0 + k * step) <;> simp

theorem samplePoints_eq {E V : Type} (lib : MathLib ℚ E V) (c : E) (xMin xMax : ℚ)
    (n fuel : Nat) (hdom : xMin < xMax) (hn : 1 ≤ n) (hfuel : n + 1 ≤ fuel) :
    samplePoints ratArith lib c xMin xMax n fuel = some (gridSeries lib c xMin xMax n) := by
  have hn0 : (n : ℚ) ≠ 0 := by exact_mod_cast (by omega : n ≠ 0)
  have hnpos : (0 : ℚ) < n := by exact_mod_cast (by omega : 0 < n)
  have hstep : 0 < (xMax - xMin) / n := div_pos (by linarith) hnpos
  have hmax : xMax = xMin + n * ((xMax - xMin) / n) := by field_simp
  have h := forLoop_grid lib c xMin ((xMax - xMin) / n) hstep n (n + 1) 0 fuel [] (by omega) hfuel
  simp only [Nat.cast_zero, zero_mul, add_zero, List.nil_append] at h
  rw [← hmax] at h
  show forLoop ratArith lib c xMax ((xMax - xMin) / n) fuel ⟨xMin, []⟩ = _
  unfold gridSeries gridPoint
  rw [h, List.range_eq_range']

/-! ## `updatePlot` -/

/-- In every arithmetic, `forEach` returns exactly when every scan exits within the budget, and
it then has pushed one dataset per function, in order. -/
theorem forEachFunction_eq_some_iff {F E V : Type} (ar : Arith F) (lib : MathLib F E V)
    (xMin xMax : F) (fuel : Nat) :
    ∀ (funcs : List (FunctionEntry E)) (datasets out : List (Dataset F)),
      forEachFunction ar lib xMin xMax fuel funcs datasets = some out ↔
        ∃ series : List (List (Point F)),
          List.Forall₂ (fun func pts =>
            samplePoints ar lib func.compiled xMin xMax numPoints fuel = some pts) funcs series ∧
          out = datasets ++ List.zipWith mkDataset funcs series := by
  intro funcs
  induction funcs with
  | nil =>
    intro datasets out
    simp only [forEachFunction, Option.some.injEq, List.forall₂_nil_left_iff]
    constructor
    · intro h; exact ⟨[], rfl, by simp [h]⟩
    · rintro ⟨series, rfl, h⟩; simp [h]
  | cons func rest ih =>
    intro datasets out
    rw [forEachFunction]
    cases hs : samplePoints ar lib func.compiled xMin xMax numPoints fuel with
    | none =>
      constructor
      · intro h; cases h
      · rintro ⟨series, hall, -⟩
        cases hall with
        | cons h _ => rw [hs] at h; cases h
    | some pts =>
      simp only [ih]
      constructor
      · rintro ⟨series, hall, rfl⟩
        exact ⟨pts :: series, List.Forall₂.cons hs hall, by simp⟩
      · rintro ⟨series, hall, rfl⟩
        cases hall with
        | cons h htail =>
          rw [hs] at h
          cases h
          exact ⟨_, htail, by simp⟩

theorem updatePlot_eq_some_iff {F E V : Type} (ar : Arith F) (lib : MathLib F E V) (fuel : Nat)
    (s t : State F E) :
    updatePlot ar lib fuel s = some t ↔
      ∃ series : List (List (Point F)),
        List.Forall₂ (fun func pts =>
          samplePoints ar lib func.compiled s.xMin s.xMax numPoints fuel = some pts)
          s.functions series ∧
        t = { s with datasets := List.zipWith mkDataset s.functions series } := by
  unfold updatePlot
  cases hf : forEachFunction ar lib s.xMin s.xMax fuel s.functions [] with
  | none =>
    constructor
    · intro h; cases h
    · rintro ⟨series, hall, -⟩
      have := (forEachFunction_eq_some_iff ar lib s.xMin s.xMax fuel s.functions [] _).mpr
        ⟨series, hall, rfl⟩
      rw [hf] at this
      cases this
  | some datasets =>
    obtain ⟨series, hall, hd⟩ :=
      (forEachFunction_eq_some_iff ar lib s.xMin s.xMax fuel s.functions [] datasets).mp hf
    simp only [List.nil_append] at hd
    constructor
    · intro h
      exact ⟨series, hall, by rw [← Option.some.inj h, hd]⟩
    · rintro ⟨series2, hall2, rfl⟩
      have h2 := (forEachFunction_eq_some_iff ar lib s.xMin s.xMax fuel s.functions []
        (List.zipWith mkDataset s.functions series2)).mpr ⟨series2, hall2, by simp⟩
      rw [hf] at h2
      rw [Option.some.inj h2]

/-- What `updatePlot` returns differs from its argument in the datasets only. -/
theorem updatePlot_some {F E V : Type} (ar : Arith F) (lib : MathLib F E V) (fuel : Nat)
    (s t : State F E) (h : updatePlot ar lib fuel s = some t) :
    ∃ datasets, t = { s with datasets := datasets } := by
  obtain ⟨series, -, ht⟩ := (updatePlot_eq_some_iff ar lib fuel s t).mp h
  exact ⟨_, ht⟩

theorem forall₂_exists_iff {α β : Type} (R : α → β → Prop) :
    ∀ (l : List α), (∃ m : List β, List.Forall₂ R l m) ↔ ∀ a ∈ l, ∃ b, R a b := by
  intro l
  induction l with
  | nil => simp
  | cons a l ih =>
    constructor
    · rintro ⟨m, hm⟩
      cases hm with
      | cons h htail =>
        intro x hx
        rcases List.mem_cons.mp hx with rfl | hx
        · exact ⟨_, h⟩
        · exact (ih.mp ⟨_, htail⟩) x hx
    · intro h
      obtain ⟨b, hb⟩ := h a (List.mem_cons_self a l)
      obtain ⟨m, hm⟩ := ih.mpr (fun x hx => h x (List.mem_cons_of_mem a hx))
      exact ⟨b :: m, List.Forall₂.cons hb hm⟩

/-- In every arithmetic, `updatePlot` returns exactly when every scan exits within the budget. -/
theorem updatePlot_isSome_iff {F E V : Type} (ar : Arith F) (lib : MathLib F E V) (fuel : Nat)
    (s : State F E) :
    (∃ t, updatePlot ar lib fuel s = some t) ↔
      ∀ func ∈ s.functions,
        ∃ pts, samplePoints ar lib func.compiled s.xMin s.xMax numPoints fuel = some pts := by
  rw [← forall₂_exists_iff]
  constructor
  · rintro ⟨t, ht⟩
    obtain ⟨series, hall, -⟩ := (updatePlot_eq_some_iff ar lib fuel s t).mp ht
    exact ⟨series, hall⟩
  · rintro ⟨series, hall⟩
    exact ⟨_, (updatePlot_eq_some_iff ar lib fuel s _).mpr ⟨series, hall, rfl⟩⟩

/-- In exact arithmetic on a valid domain `updatePlot` returns within 501 iterations per scan. -/
theorem updatePlot_eq {E V : Type} (lib : MathLib ℚ E V) (fuel : Nat) (s : State ℚ E)
    (hdom : s.xMin < s.xMax) (hfuel : numPoints + 1 ≤ fuel) :
    updatePlot ratArith lib fuel s =
      some { s with datasets := s.functions.map (fun func =>
        mkDataset func (gridSeries lib func.compiled s.xMin s.xMax numPoints)) } := by
  rw [updatePlot_eq_some_iff]
  refine ⟨s.functions.map (fun func => gridSeries lib func.compiled s.xMin s.xMax numPoints),
    ?_, ?_⟩
  · rw [List.forall₂_map_right_iff, List.forall₂_same]
    intro func _
    exact samplePoints_eq lib func.compiled s.xMin s.xMax numPoints fuel hdom (by decide) hfuel
  · congr 1
    induction s.functions with
    | nil => rfl
    | cons func rest ih => simp [ih]

/-! ## `addFunction` and the remove buttons -/

theorem append_ne_empty (m : String) : "Invalid expression: " ++ m ≠ "" := by
  intro h
  have h1 := congrArg String.length h
  rw [String.length_append] at h1
  have h2 : "Invalid expression: ".length = 20 := by decide
  have h3 : "".length = 0 := by decide
  omega

/-- The first part of `addFunction` when a check fails: only the error text changes. -/
theorem addFunctionStart_rejected {F E V : Type} (ar : Arith F) (lib : MathLib F E V)
    (s : State F E) (h : addRejects ar lib s) :
    ∃ msg, msg ≠ "" ∧ addFunctionStart ar lib s = .rejected (showError msg s) := by
  unfold addFunctionStart
  by_cases h1 : trim s.expressionInput = ""
  · exact ⟨"Please enter a function expression", by decide, by simp only [if_pos h1]⟩
  by_cases h2 : ar.ge s.xMin s.xMax = true
  · exact ⟨"X Min must be less than X Max", by decide, by simp only [if_neg h1, if_pos h2]⟩
  simp only [if_neg h1, if_neg h2]
  rcases h with h | h | ⟨m, hm⟩ | ⟨c, m, hc, hm⟩
  · exact absurd h h1
  · exact absurd h h2
  · exact ⟨_, append_ne_empty m, by simp only [hm]⟩
  · exact ⟨_, append_ne_empty m, by simp only [hc, hm]⟩

/-- The first part of `addFunction` when every check passes. -/
theorem addFunctionStart_pushed {F E V : Type} (ar : Arith F) (lib : MathLib F E V)
    (s : State F E) (c : E) (y : Value F) (hne : trim s.expressionInput ≠ "")
    (hge : ar.ge s.xMin s.xMax = false) (hc : lib.compile (trim s.expressionInput) = .ok c)
    (hy : lib.evaluateAt c (ar.ofNat 1) = .ok y) :
    addFunctionStart ar lib s =
      .pushed (pushedState s c) (trim s.expressionInput) (paletteAt s.nextColorIndex) := by
  have h2 : ¬ ar.ge s.xMin s.xMax = true := by rw [hge]; exact Bool.false_ne_true
  unfold addFunctionStart
  simp only [if_neg hne, if_neg h2, hc, hy, clearError, pushedState]

theorem not_addRejects {F E V : Type} (ar : Arith F) (lib : MathLib F E V) (s : State F E)
    (h : ¬ addRejects ar lib s) :
    trim s.expressionInput ≠ "" ∧ ar.ge s.xMin s.xMax = false ∧
      ∃ c y, lib.compile (trim s.expressionInput) = .ok c ∧
        lib.evaluateAt c (ar.ofNat 1) = .ok y := by
  have h1 : trim s.expressionInput ≠ "" := fun h1 => h (Or.inl h1)
  have h2 : ar.ge s.xMin s.xMax = false := by
    cases hg : ar.ge s.xMin s.xMax with
    | false => rfl
    | true => exact absurd (Or.inr (Or.inl hg)) h
  obtain ⟨c, hc⟩ : ∃ c, lib.compile (trim s.expressionInput) = .ok c := by
    cases hcomp : lib.compile (trim s.expressionInput) with
    | error m => exact absurd (Or.inr (Or.inr (Or.inl ⟨m, hcomp⟩))) h
    | ok c => exact ⟨c, rfl⟩
  obtain ⟨y, hy⟩ : ∃ y, lib.evaluateAt c (ar.ofNat 1) = .ok y := by
    cases hev : lib.evaluateAt c (ar.ofNat 1) with
    | error m => exact absurd (Or.inr (Or.inr (Or.inr ⟨c, m, hc, hev⟩))) h
    | ok y => exact ⟨y, rfl⟩
  exact ⟨h1, h2, c, y, hc, hy⟩

theorem addFunction_of_rejected {F E V : Type} (ar : Arith F) (lib : MathLib F E V)
    (fuel : Nat) (s t : State F E) (h : addFunctionStart ar lib s = .rejected t) :
    addFunction ar lib fuel s = some t := by
  unfold addFunction
  rw [h]

/-- After the push, `addFunction` returns what `updatePlot` returns, with the item appended to
the visual list and the input cleared. -/
theorem addFunction_of_pushed {F E V : Type} (ar : Arith F) (lib : MathLib F E V) (fuel : Nat)
    (s s3 t : State F E) (expressionValue color : String)
    (h : addFunctionStart ar lib s = .pushed s3 expressionValue color) :
    addFunction ar lib fuel s = some t ↔
      ∃ s4, updatePlot ar lib fuel s3 = some s4 ∧
        t = { addFunctionToList expressionValue color s4 with expressionInput := "" } := by
  unfold addFunction
  rw [h]
  simp only
  cases hu : updatePlot ar lib fuel s3 with
  | none =>
    constructor
    · intro h1; cases h1
    · rintro ⟨s4, h4, -⟩; cases h4
  | some s4 =>
    constructor
    · intro h1; exact ⟨s4, rfl, (Option.some.inj h1).symm⟩
    · rintro ⟨s5, h5, rfl⟩
      rw [Option.some.inj h5]

/-- Whatever the arithmetic and the budget, a call of `addFunction` that returns either only
showed an error or appended one entry coloured by the counter and advanced the counter by
one. -/
theorem addFunction_some {F E V : Type} (ar : Arith F) (lib : MathLib F E V) (fuel : Nat)
    (s t : State F E) (h : addFunction ar lib fuel s = some t) :
    (∃ msg, msg ≠ "" ∧ t = showError msg s ∧ addRejects ar lib s) ∨
    (¬ addRejects ar lib s ∧ t.expressionError = "" ∧
      ∃ entry, t.functions = s.functions ++ [entry] ∧
        entry.expression = trim s.expressionInput ∧
        lib.compile (trim s.expressionInput) = .ok entry.compiled ∧
        entry.color = paletteAt s.nextColorIndex ∧
        t.nextColorIndex = s.nextColorIndex + 1) := by
  by_cases hr : addRejects ar lib s
  · obtain ⟨msg, hmsg, hstart⟩ := addFunctionStart_rejected ar lib s hr
    rw [addFunction_of_rejected ar lib fuel s _ hstart] at h
    exact Or.inl ⟨msg, hmsg, (Option.some.inj h).symm, hr⟩
  · obtain ⟨h1, h2, c, y, hc, hy⟩ := not_addRejects ar lib s hr
    have hstart := addFunctionStart_pushed ar lib s c y h1 h2 hc hy
    obtain ⟨s4, h4, rfl⟩ := (addFunction_of_pushed ar lib fuel s _ t _ _ hstart).mp h
    obtain ⟨datasets, rfl⟩ := updatePlot_some ar lib fuel _ s4 h4
    exact Or.inr ⟨hr, rfl, _, rfl, rfl, hc, rfl, rfl⟩

/-- In exact arithmetic, the state `addFunction` returns when every check passes. -/
theorem addFunction_ok {E V : Type} (lib : MathLib ℚ E V) (fuel : Nat) (s : State ℚ E) (c : E)
    (y : Value ℚ) (hne : trim s.expressionInput ≠ "") (hdom : s.xMin < s.xMax)
    (hc : lib.compile (trim s.expressionInput) = .ok c) (hy : lib.evaluateAt c 1 = .ok y)
    (hfuel : numPoints + 1 ≤ fuel) :
    ∃ t, addFunction ratArith lib fuel s = some t ∧
      t.functions = s.functions ++
        [{ expression := trim s.expressionInput, compiled := c,
           color := paletteAt s.nextColorIndex }] ∧
      t.nextColorIndex = s.nextColorIndex + 1 ∧ t.expressionError = "" ∧
      t.xMin = s.xMin ∧ t.xMax = s.xMax ∧
      t.functionList = s.functionList ++
        [{ index := s.functions.length, dataIndex := s.functions.length,
           color := paletteAt s.nextColorIndex,
           text := "f(x) = " ++ trim s.expressionInput }] := by
  have hge : ratArith.ge s.xMin s.xMax = false := decide_eq_false (not_le.mpr hdom)
  have hy2 : lib.evaluateAt c (ratArith.ofNat 1) = .ok y := by
    show lib.evaluateAt c ((1 : Nat) : ℚ) = .ok y
    rw [Nat.cast_one]; exact hy
  have hstart := addFunctionStart_pushed ratArith lib s c y hne hge hc hy2
  have hup := updatePlot_eq lib fuel (pushedState s c) hdom hfuel
  refine ⟨_, (addFunction_of_pushed ratArith lib fuel s _ _ _ _ hstart).mpr ⟨_, hup, rfl⟩,
    rfl, rfl, rfl, rfl, rfl, ?_⟩
  simp [addFunctionToList, pushedState]

/-- In exact arithmetic, the state the remove button of the item at position `pos` leaves on a
valid domain. -/
theorem removeClick_ok {E V : Type} (lib : MathLib ℚ E V) (fuel pos : Nat) (s : State ℚ E)
    (item : FunctionItem) (hitem : s.functionList.get? pos = some item)
    (hdom : s.xMin < s.xMax) (hfuel : numPoints + 1 ≤ fuel) :
    ∃ t, removeClick ratArith lib fuel pos s = some t ∧
      t.functions = s.functions.eraseIdx item.index ∧
      t.functionList = renumber 0 (s.functionList.eraseIdx pos) ∧
      t.nextColorIndex = s.nextColorIndex ∧ t.xMin = s.xMin ∧ t.xMax = s.xMax := by
  unfold removeClick
  simp only [hitem]
  rw [updatePlot_eq lib fuel]
  · exact ⟨_, rfl, rfl, rfl, rfl, rfl, rfl⟩
  · exact hdom
  · exact hfuel

theorem removeClick_counter {F E V : Type} (ar : Arith F) (lib : MathLib F E V)
    (fuel pos : Nat) (s t : State F E) (h : removeClick ar lib fuel pos s = some t) :
    t.nextColorIndex = s.nextColorIndex := by
  unfold removeClick at h
  split at h
  · rw [← Option.some.inj h]
  · simp only at h
    split at h
    · cases h
    · rename_i s2 hs2
      obtain ⟨datasets, rfl⟩ := updatePlot_some ar lib fuel _ s2 hs2
      rw [← Option.some.inj h]

/-! ## Degenerate domains in exact arithmetic -/

theorem samplePoints_reversed {E V : Type} (lib : MathLib ℚ E V) (c : E) (xMin xMax : ℚ)
    (n fuel : Nat) (h : xMax < xMin) : samplePoints ratArith lib c xMin xMax n fuel = some [] :=
  forLoop_exit ratArith lib c xMax _ fuel ⟨xMin, []⟩ (decide_eq_false (not_le.mpr h))

theorem forLoop_stuck {E V : Type} (lib : MathLib ℚ E V) (c : E) (xMax : ℚ) :
    ∀ (fuel : Nat) (st : LoopState ℚ), st.x ≤ xMax →
      forLoop ratArith lib c xMax 0 fuel st = none := by
  intro fuel
  induction fuel with
  | zero =>
    intro st h
    have hc : loopCond ratArith xMax st = true := decide_eq_true h
    simp [forLoop, hc]
  | succ f ih =>
    intro st h
    have hc : loopCond ratArith xMax st = true := decide_eq_true h
    rw [forLoop, if_pos hc]
    apply ih
    show st.x + 0 ≤ xMax
    rw [add_zero]; exact h

theorem samplePoints_stuck {E V : Type} (lib : MathLib ℚ E V) (c : E) (x : ℚ) (n fuel : Nat) :
    samplePoints ratArith lib c x x n fuel = none := by
  show forLoop ratArith lib c x ((x - x) / (n : ℚ)) fuel ⟨x, []⟩ = none
  rw [sub_self, zero_div]
  exact forLoop_stuck lib c x fuel ⟨x, []⟩ (le_refl x)

theorem forEachFunction_reversed {E V : Type} (lib : MathLib ℚ E V) (xMin xMax : ℚ)
    (fuel : Nat) (h : xMax < xMin) :
    ∀ (funcs : List (FunctionEntry E)) (datasets : List (Dataset ℚ)),
      forEachFunction ratArith lib xMin xMax fuel funcs datasets =
        some (datasets ++ funcs.map (fun func => mkDataset func [])) := by
  intro funcs
  induction funcs with
  | nil => intro datasets; simp [forEachFunction]
  | cons func rest ih =>
    intro datasets
    rw [forEachFunction, samplePoints_reversed lib func.compiled xMin xMax numPoints fuel h]
    simp only [ih, List.map_cons, List.append_assoc, List.singleton_append]

theorem updatePlot_reversed {E V : Type} (lib : MathLib ℚ E V) (fuel : Nat) (s : State ℚ E)
    (h : s.xMax < s.xMin) :
    updatePlot ratArith lib fuel s =
      some { s with datasets := s.functions.map (fun func => mkDataset func []) } := by
  unfold updatePlot
  rw [forEachFunction_reversed lib s.xMin s.xMax fuel h]
  simp

theorem updatePlot_stuck {E V : Type} (lib : MathLib ℚ E V) (fuel : Nat) (s : State ℚ E)
    (h : s.xMin = s.xMax) (hne : s.functions ≠ []) : updatePlot ratArith lib fuel s = none := by
  unfold updatePlot
  cases hf : s.functions with
  | nil => exact absurd hf hne
  | cons func rest =>
    rw [forEachFunction, h, samplePoints_stuck]

/-! ## Registry: adding a function -/

theorem append_singleton_ne {α : Type} (l : List α) (a : α) : l ++ [a] ≠ l := by
  intro h
  have := congrArg List.length h
  simp at this

/-- C1: for every state, every expression text that is non-blank after trimming, compiles and
evaluates at `x = 1` without throwing, and every domain with `xMin < xMax`: in every arithmetic,
when `addFunction` reaches the plot refresh it has kept the existing entries unchanged and in
order and appended exactly one entry at the end, whose expression is the trimmed text and whose
compiled handle is the one `compile` returned for the trimmed text; the registry is one longer,
it is the registry of every state the call returns, and the call returns as soon as every scan
of the refresh exits within the budget.  In exact arithmetic the call returns, 501 iterations
per scan being enough. -/
theorem addFunction_appends_entry {E V : Type} :
    (∀ (F : Type) (ar : Arith F) (lib : MathLib F E V) (s : State F E) (c : E) (y : Value F),
      trim s.expressionInput ≠ "" → ar.lt s.xMin s.xMax = true →
      lib.compile (trim s.expressionInput) = .ok c → lib.evaluateAt c (ar.ofNat 1) = .ok y →
      ∃ (entry : FunctionEntry E) (s3 : State F E) (color : String),
        entry.expression = trim s.expressionInput ∧ entry.compiled = c ∧
        addFunctionStart ar lib s = .pushed s3 (trim s.expressionInput) color ∧
        s3.functions = s.functions ++ [entry] ∧
        s3.functions.length = s.functions.length + 1 ∧
        (∀ fuel t, addFunction ar lib fuel s = some t → t.functions = s.functions ++ [entry]) ∧
        (∀ fuel,
          (∀ func ∈ s.functions ++ [entry],
            ∃ pts, samplePoints ar lib func.compiled s.xMin s.xMax 500 fuel = some pts) →
          ∃ t, addFunction ar lib fuel s = some t)) ∧
    (∀ (lib : MathLib ℚ E V) (s : State ℚ E) (c : E) (y : Value ℚ) (fuel : Nat),
      trim s.expressionInput ≠ "" → s.xMin < s.xMax →
      lib.compile (trim s.expressionInput) = .ok c → lib.evaluateAt c 1 = .ok y →
      501 ≤ fuel →
      ∃ t entry, addFunction ratArith lib fuel s = some t ∧
        t.functions = s.functions ++ [entry] ∧
        entry.expression = trim s.expressionInput ∧ entry.compiled = c ∧
        t.functions.length = s.functions.length + 1) := by
  constructor
  · intro F ar lib s c y hne hdom hc hy
    have hge := ar.lt_not_ge s.xMin s.xMax hdom
    have hstart := addFunctionStart_pushed ar lib s c y hne hge hc hy
    refine ⟨⟨trim s.expressionInput, c, paletteAt s.nextColorIndex⟩, pushedState s c, _,
      rfl, rfl, hstart, rfl, by simp [pushedState], fun fuel t ht => ?_, fun fuel hall => ?_⟩
    · obtain ⟨s4, h4, rfl⟩ := (addFunction_of_pushed ar lib fuel s _ t _ _ hstart).mp ht
      obtain ⟨datasets, rfl⟩ := updatePlot_some ar lib fuel _ s4 h4
      rfl
    · obtain ⟨s4, h4⟩ := (updatePlot_isSome_iff ar lib fuel (pushedState s c)).mpr hall
      exact ⟨_, (addFunction_of_pushed ar lib fuel s _ _ _ _ hstart).mpr ⟨s4, h4, rfl⟩⟩
  · intro lib s c y fuel hne hdom hc hy hfuel
    have hnp : numPoints = 500 := rfl
    obtain ⟨t, ht, hf, _⟩ := addFunction_ok lib fuel s c y hne hdom hc hy (by omega)
    exact ⟨t, _, ht, hf, rfl, rfl, by simp [hf]⟩

theorem addFunction_appends_entry_witness :
    ∃ t entry,
      addFunction ratArith toyLib 501 (initialState ToyExpr "\u00a0x^2 " (-2) 2 "") = some t ∧
      t.functions = [] ++ [entry] ∧ entry.expression = "x^2" ∧ entry.compiled = ToyExpr.square ∧
      t.functions.length = 0 + 1 :=
  addFunction_appends_entry.2 toyLib (initialState ToyExpr "\u00a0x^2 " (-2) 2 "")
    ToyExpr.square (Value.num (1 * 1)) 501 (by decide) (by simp [initialState]) rfl rfl
    (le_refl 501)

/-- C2: for every state and every input, in every arithmetic: `addFunction` fails (it returns
with an error message shown and the registry the same sequence as before) if and only if the
trimmed expression text is empty, or `xMin >= xMax`, or compiling the trimmed text throws, or
the trial evaluation at `x = 1` throws.  Under these conditions it returns whatever the budget
and changes nothing but the error text; otherwise it clears the error text and pushes an entry,
and no state it returns is a failure.  A blank text fails with the empty-expression message,
and a non-blank text with `xMin >= xMax` fails with the invalid-domain message.  In exact
arithmetic the call returns for every state, 501 iterations per scan being enough. -/
theorem addFunction_fails_iff {E V : Type} :
    (∀ (F : Type) (ar : Arith F) (lib : MathLib F E V) (s : State F E),
      ((∃ fuel t, addFunction ar lib fuel s = some t ∧
          t.expressionError ≠ "" ∧ t.functions = s.functions) ↔ addRejects ar lib s) ∧
      (addRejects ar lib s →
        ∃ msg, msg ≠ "" ∧ ∀ fuel, addFunction ar lib fuel s = some (showError msg s)) ∧
      (¬ addRejects ar lib s →
        ∃ (s3 : State F E) (color : String),
          addFunctionStart ar lib s = .pushed s3 (trim s.expressionInput) color ∧
          s3.expressionError = "" ∧ s3.functions ≠ s.functions ∧
          ∀ fuel t, addFunction ar lib fuel s = some t →
            t.expressionError = "" ∧ t.functions ≠ s.functions) ∧
      (trim s.expressionInput = "" →
        ∀ fuel, addFunction ar lib fuel s =
          some (showError "Please enter a function expression" s)) ∧
      (trim s.expressionInput ≠ "" → ar.ge s.xMin s.xMax = true →
        ∀ fuel, addFunction ar lib fuel s =
          some (showError "X Min must be less than X Max" s))) ∧
    (∀ (lib : MathLib ℚ E V) (s : State ℚ E) (fuel : Nat), 501 ≤ fuel →
      ∃ t, addFunction ratArith lib fuel s = some t) := by
  have hpush : ∀ (F : Type) (ar : Arith F) (lib : MathLib F E V) (s : State F E),
      ¬ addRejects ar lib s → ∀ fuel t, addFunction ar lib fuel s = some t →
        t.expressionError = "" ∧ t.functions ≠ s.functions := by
    intro F ar lib s hr fuel t ht
    rcases addFunction_some ar lib fuel s t ht with ⟨msg, -, -, hrej⟩ | ⟨-, he, entry, hf, -⟩
    · exact absurd hrej hr
    · exact ⟨he, by rw [hf]; exact append_singleton_ne _ _⟩
  constructor
  · intro F ar lib s
    refine ⟨⟨?_, ?_⟩, ?_, ?_, ?_, ?_⟩
    · rintro ⟨fuel, t, ht, herr, hfun⟩
      by_contra hr
      exact (hpush F ar lib s hr fuel t ht).2 hfun
    · intro hr
      obtain ⟨msg, hmsg, hstart⟩ := addFunctionStart_rejected ar lib s hr
      exact ⟨0, _, addFunction_of_rejected ar lib 0 s _ hstart, hmsg, rfl⟩
    · intro hr
      obtain ⟨msg, hmsg, hstart⟩ := addFunctionStart_rejected ar lib s hr
      exact ⟨msg, hmsg, fun fuel => addFunction_of_rejected ar lib fuel s _ hstart⟩
    · intro hr
      obtain ⟨h1, h2, c, y, hc, hy⟩ := not_addRejects ar lib s hr
      exact ⟨pushedState s c, _, addFunctionStart_pushed ar lib s c y h1 h2 hc hy, rfl,
        append_singleton_ne _ _, hpush F ar lib s hr⟩
    · intro h1 fuel
      apply addFunction_of_rejected
      unfold addFunctionStart
      simp only [if_pos h1]
    · intro h1 h2 fuel
      apply addFunction_of_rejected
      unfold addFunctionStart
      simp only [if_neg h1, if_pos h2]
  · intro lib s fuel hfuel
    have hnp : numPoints = 500 := rfl
    by_cases hr : addRejects ratArith lib s
    · obtain ⟨msg, -, hstart⟩ := addFunctionStart_rejected ratArith lib s hr
      exact ⟨_, addFunction_of_rejected ratArith lib fuel s _ hstart⟩
    · obtain ⟨h1, h2, c, y, hc, hy⟩ := not_addRejects ratArith lib s hr
      have hdom : s.xMin < s.xMax := not_le.mp (of_decide_eq_false h2)
      have hy2 : lib.evaluateAt c 1 = .ok y := by
        have : ratArith.ofNat 1 = (1 : ℚ) := Nat.cast_one
        rw [← this]; exact hy
      obtain ⟨t, ht, -⟩ := addFunction_ok lib fuel s c y h1 hdom hc hy2 (by omega)
      exact ⟨t, ht⟩

theorem addFunction_fails_iff_witness :
    (∀ fuel, addFunction ratArith toyLib fuel (initialState ToyExpr "" (-10) 10 "") =
      some (showError "Please enter a function expression"
        (initialState ToyExpr "" (-10) 10 ""))) ∧
    (∀ fuel, addFunction ratArith toyLib fuel (initialState ToyExpr "   " (-10) 10 "") =
      some (showError "Please enter a function expression"
        (initialState ToyExpr "   " (-10) 10 ""))) ∧
    (∀ fuel, addFunction ratArith toyLib fuel (initialState ToyExpr "\u00a0" (-10) 10 "") =
      some (showError "Please enter a function expression"
        (initialState ToyExpr "\u00a0" (-10) 10 ""))) ∧
    (∀ fuel, addFunction ratArith toyLib fuel (initialState ToyExpr "x^2" 5 5 "") =
      some (showError "X Min must be less than X Max" (initialState ToyExpr "x^2" 5 5 ""))) ∧
    (∀ fuel t,
      addFunction nanArith toyLibNaN fuel (initialState ToyExpr "x^2" none (some 10) "") =
        some t → t.expressionError = "" ∧ t.functions ≠ []) ∧
    (∃ t, addFunction nanArith toyLibNaN 0 (initialState ToyExpr "x^2" none (some 10) "") =
      some t) := by
  refine ⟨?_, ?_, ?_, ?_, ?_, ⟨_, rfl⟩⟩
  · exact (addFunction_fails_iff.1 ℚ ratArith toyLib _).2.2.2.1 (by decide)
  · exact (addFunction_fails_iff.1 ℚ ratArith toyLib _).2.2.2.1 (by decide)
  · exact (addFunction_fails_iff.1 ℚ ratArith toyLib _).2.2.2.1 (by decide)
  · exact (addFunction_fails_iff.1 ℚ ratArith toyLib _).2.2.2.2 (by decide)
      (by simp [initialState, ratArith])
  · have hr : ¬ addRejects nanArith toyLibNaN
        (initialState ToyExpr "x^2" none (some 10) "") := by
      have hc : toyLibNaN.compile (trim "x^2") = .ok ToyExpr.square := rfl
      rintro (h | h | ⟨m, h⟩ | ⟨c, m, h1, h2⟩)
      · exact absurd h (by decide)
      · cases h
      · change toyLibNaN.compile (trim "x^2") = .error m at h
        rw [hc] at h; cases h
      · change toyLibNaN.compile (trim "x^2") = .ok c at h1
        rw [hc] at h1
        cases h1
        cases h2
    obtain ⟨s3, color, -, -, -, hall⟩ :=
      (addFunction_fails_iff.1 (Option ℚ) nanArith toyLibNaN _).2.2.1 hr
    exact hall

/-! ## Registry: removing through the visual list -/

/-- C3 (what the code does at the witness of the claim): after adding `a`, `b` and `c`, the list
shows `a`, `b`, `c`.  The remove button of the first item removes `a` from the registry and the
list then shows `b`, `c`, renumbered 0 and 1.  The remove button of the item now first, which
displays `b`, removes `c` from the registry: its listener splices at the index captured when the
item was created, 1.  The registry is left with `b` while the list displays `c`. -/
theorem removeClick_twice_leaves_b :
    ∃ s1 s2 s3 t u,
      addFunction ratArith toyLib 501 (initialState ToyExpr "a" 0 1 "") = some s1 ∧
      addFunction ratArith toyLib 501 { s1 with expressionInput := "b" } = some s2 ∧
      addFunction ratArith toyLib 501 { s2 with expressionInput := "c" } = some s3 ∧
      s3.functions.map (fun func => func.expression) = ["a", "b", "c"] ∧
      s3.functionList.map (fun item => item.text) = ["f(x) = a", "f(x) = b", "f(x) = c"] ∧
      removeClick ratArith toyLib 501 0 s3 = some t ∧
      t.functions.map (fun func => func.expression) = ["b", "c"] ∧
      t.functionList.map (fun item => item.text) = ["f(x) = b", "f(x) = c"] ∧
      t.functionList.map (fun item => item.dataIndex) = [0, 1] ∧
      removeClick ratArith toyLib 501 0 t = some u ∧
      u.functions.map (fun func => func.expression) = ["b"] ∧
      u.functionList.map (fun item => item.text) = ["f(x) = c"] := by
  obtain ⟨s1, h1, f1, -, -, x1, y1, l1⟩ :=
    addFunction_ok toyLib 501 (initialState ToyExpr "a" 0 1 "") (ToyExpr.const 1) (Value.num 1)
      (by decide) (by simp [initialState]) rfl rfl (by decide)
  have d1 : s1.xMin < s1.xMax := by rw [x1, y1]; simp [initialState]
  obtain ⟨s2, h2, f2, -, -, x2, y2, l2⟩ :=
    addFunction_ok toyLib 501 { s1 with expressionInput := "b" } (ToyExpr.const 2) (Value.num 2)
      (show trim "b" ≠ "" by decide) d1 rfl rfl (by decide)
  have d2 : s2.xMin < s2.xMax := by rw [x2, y2]; exact d1
  obtain ⟨s3, h3, f3, -, -, x3, y3, l3⟩ :=
    addFunction_ok toyLib 501 { s2 with expressionInput := "c" } (ToyExpr.const 3) (Value.num 3)
      (show trim "c" ≠ "" by decide) d2 rfl rfl (by decide)
  have d3 : s3.xMin < s3.xMax := by rw [x3, y3]; exact d2
  simp only [initialState, List.nil_append, List.length_nil] at f1 l1
  simp only [f1, l1, List.singleton_append, List.length_singleton] at f2 l2
  simp only [f2, l2, List.cons_append, List.nil_append, List.length_cons,
    List.length_nil] at f3 l3
  obtain ⟨t, ht, ft, lt, -, xt, yt⟩ :=
    removeClick_ok toyLib 501 0 s3 _ (by rw [l3]; rfl) d3 (by decide)
  have dt : t.xMin < t.xMax := by rw [xt, yt]; exact d3
  simp only [f3, l3, List.eraseIdx_cons_zero, renumber] at ft lt
  obtain ⟨u, hu, fu, lu, -, -, -⟩ :=
    removeClick_ok toyLib 501 0 t _ (by rw [lt]; rfl) dt (by decide)
  simp only [ft, lt, List.eraseIdx_cons_zero, List.eraseIdx_cons_succ, renumber] at fu lu
  refine ⟨s1, s2, s3, t, u, h1, h2, h3, ?_, ?_, ht, ?_, ?_, ?_, hu, ?_, ?_⟩
  · rw [f3]; rfl
  · rw [l3]; rfl
  · rw [ft]; rfl
  · rw [lt]; rfl
  · rw [lt]; rfl
  · rw [fu]; rfl
  · rw [lu]; rfl

/-! ## Colour allocation -/

/-- One user action gives out no colour and keeps the counter, or gives out the colour at the
counter and advances the counter by one. -/
theorem step_assigned {F E V : Type} (ar : Arith F) (lib : MathLib F E V) (fuel : Nat)
    (s t : State F E) (e : Event F) (h : step ar lib fuel s e = some t) :
    (assigned s t e = [] ∧ t.nextColorIndex = s.nextColorIndex) ∨
    (assigned s t e = [paletteAt s.nextColorIndex] ∧
      t.nextColorIndex = s.nextColorIndex + 1) := by
  cases e with
  | typeExpression text => left; simp only [step] at h; rw [← Option.some.inj h]; exact ⟨rfl, rfl⟩
  | typeXMin q => left; simp only [step] at h; rw [← Option.some.inj h]; exact ⟨rfl, rfl⟩
  | typeXMax q => left; simp only [step] at h; rw [← Option.some.inj h]; exact ⟨rfl, rfl⟩
  | clickRemove pos => left; exact ⟨rfl, removeClick_counter ar lib fuel pos s t h⟩
  | clickAdd =>
    rcases addFunction_some ar lib fuel s t h with
      ⟨msg, -, rfl, -⟩ | ⟨-, -, entry, hf, -, -, hcol, hn⟩
    · left; simp [assigned, showError]
    · right
      refine ⟨?_, hn⟩
      simp [assigned, hf, hcol]

theorem run_assigned {F E V : Type} (ar : Arith F) (lib : MathLib F E V) (fuel : Nat) :
    ∀ (events : List (Event F)) (s u : State F E) (log : List String),
      run ar lib fuel events s = some (u, log) →
        u.nextColorIndex = s.nextColorIndex + log.length ∧
        ∀ k (hk : k < log.length), log.get ⟨k, hk⟩ = paletteAt (s.nextColorIndex + k) := by
  intro events
  induction events with
  | nil =>
    intro s u log h
    simp only [run, Option.some.injEq, Prod.mk.injEq] at h
    obtain ⟨rfl, rfl⟩ := h
    exact ⟨rfl, fun k hk => absurd hk (Nat.not_lt_zero k)⟩
  | cons e es ih =>
    intro s u log h
    rw [run] at h
    cases hs : step ar lib fuel s e with
    | none => rw [hs] at h; cases h
    | some t =>
      rw [hs] at h
      simp only at h
      cases hr : run ar lib fuel es t with
      | none => rw [hr] at h; cases h
      | some r =>
        obtain ⟨v, rest⟩ := r
        rw [hr] at h
        simp only [Option.some.injEq, Prod.mk.injEq] at h
        obtain ⟨rfl, rfl⟩ := h
        obtain ⟨hn, hlog⟩ := ih t v rest hr
        rcases step_assigned ar lib fuel s t e hs with ⟨ha, hc⟩ | ⟨ha, hc⟩
        · rw [ha, hn, hc]
          refine ⟨by simp, fun k hk => ?_⟩
          have := hlog k (by simpa using hk)
          rw [hc] at this
          simpa using this
        · rw [ha, hn, hc]
          refine ⟨by simp; omega, fun k hk => ?_⟩
          cases k with
          | zero => simp
          | succ j =>
            have := hlog j (by simpa using hk)
            rw [hc] at this
            have e1 : s.nextColorIndex + 1 + j = s.nextColorIndex + (j + 1) := by omega
            rw [e1] at this
            simpa using this

theorem paletteAt_add_length (k : Nat) : paletteAt (k + colorPalette.length) = paletteAt k := by
  unfold paletteAt
  congr 2
  exact Nat.add_mod_right k colorPalette.length

theorem run_cons_some {F E V : Type} (ar : Arith F) (lib : MathLib F E V) (fuel : Nat)
    (e : Event F) (es : List (Event F)) (s t u : State F E) (log : List String)
    (hs : step ar lib fuel s e = some t) (hr : run ar lib fuel es t = some (u, log)) :
    run ar lib fuel (e :: es) s = some (u, assigned s t e ++ log) := by
  rw [run, hs]
  simp only [hr]

/-- C4: along every sequence of user actions that starts with the counter at 0, in every
arithmetic, the entry created by the `k`-th successful add (`k = 1, 2, ...`, position `k - 1`
of the log) receives `colorPalette[(k - 1) mod 10]`, the palette having 10 colours, and the
counter ends equal to the number of successful adds; hence the colours of successful adds number
`k` and `k + 10` are the same.  A remove keeps the counter; an add either appends one entry
coloured by the counter and advances the counter by exactly one, or leaves the registry and the
counter as they were. -/
theorem colours_follow_counter {F E V : Type} (ar : Arith F) (lib : MathLib F E V) (fuel : Nat)
    (events : List (Event F)) (s u : State F E) (log : List String)
    (h0 : s.nextColorIndex = 0) (hrun : run ar lib fuel events s = some (u, log)) :
    colorPalette.length = 10 ∧
    u.nextColorIndex = log.length ∧
    (∀ k (hk : k < log.length),
      log.get ⟨k, hk⟩ = colorPalette.get ⟨k % 10, Nat.mod_lt k (by decide)⟩) ∧
    (∀ k (hk : k + 10 < log.length),
      log.get ⟨k + 10, hk⟩ = log.get ⟨k, Nat.lt_of_le_of_lt (Nat.le_add_right k 10) hk⟩) ∧
    (∀ (a b : State F E) (pos : Nat), removeClick ar lib fuel pos a = some b →
      b.nextColorIndex = a.nextColorIndex) ∧
    (∀ (a b : State F E), addFunction ar lib fuel a = some b →
      (b.nextColorIndex = a.nextColorIndex + 1 ∧
        ∃ entry, b.functions = a.functions ++ [entry] ∧
          entry.color = colorPalette.get ⟨a.nextColorIndex % 10, Nat.mod_lt _ (by decide)⟩) ∨
      (b.nextColorIndex = a.nextColorIndex ∧ b.functions = a.functions)) := by
  obtain ⟨hn, hlog⟩ := run_assigned ar lib fuel events s u log hrun
  rw [h0, Nat.zero_add] at hn
  have hlog0 : ∀ k (hk : k < log.length), log.get ⟨k, hk⟩ = paletteAt k := by
    intro k hk
    have := hlog k hk
    rwa [h0, Nat.zero_add] at this
  refine ⟨rfl, hn, fun k hk => hlog0 k hk, fun k hk => ?_, fun a b pos hab => ?_, fun a b hab => ?_⟩
  · rw [hlog0 (k + 10) hk, hlog0 k (Nat.lt_of_le_of_lt (Nat.le_add_right k 10) hk)]
    exact paletteAt_add_length k
  · exact removeClick_counter ar lib fuel pos a b hab
  · rcases addFunction_some ar lib fuel a b hab with
      ⟨msg, -, rfl, -⟩ | ⟨-, -, entry, hf, -, -, hcol, hcount⟩
    · exact Or.inr ⟨rfl, rfl⟩
    · exact Or.inl ⟨hcount, entry, hf, hcol⟩

theorem colours_follow_counter_witness :
    ∃ u log,
      run ratArith toyLib 501
        [Event.clickAdd, Event.clickRemove 0, Event.typeExpression "b", Event.clickAdd]
        (initialState ToyExpr "a" 0 1 "") = some (u, log) ∧
      u.nextColorIndex = log.length ∧
      ∀ k (hk : k < log.length),
        log.get ⟨k, hk⟩ = colorPalette.get ⟨k % 10, Nat.mod_lt k (by decide)⟩ := by
  obtain ⟨s1, h1, -, -, -, x1, y1, l1⟩ :=
    addFunction_ok toyLib 501 (initialState ToyExpr "a" 0 1 "") (ToyExpr.const 1) (Value.num 1)
      (by decide) (by simp [initialState]) rfl rfl (by decide)
  have d1 : s1.xMin < s1.xMax := by rw [x1, y1]; simp [initialState]
  obtain ⟨s2, h2, -, -, -, x2, y2⟩ :=
    removeClick_ok toyLib 501 0 s1 _ (by rw [l1]; rfl) d1 (by decide)
  have d2 : s2.xMin < s2.xMax := by rw [x2, y2]; exact d1
  obtain ⟨s4, h4, -⟩ :=
    addFunction_ok toyLib 501 { s2 with expressionInput := "b" } (ToyExpr.const 2) (Value.num 2)
      (show trim "b" ≠ "" by decide) d2 rfl rfl (by decide)
  have r4 := run_cons_some ratArith toyLib 501 Event.clickAdd []
    { s2 with expressionInput := "b" } s4 s4 [] h4 rfl
  have r3 := run_cons_some ratArith toyLib 501 (Event.typeExpression "b") _ s2 _ _ _ rfl r4
  have r2 := run_cons_some ratArith toyLib 501 (Event.clickRemove 0) _ s1 s2 _ _ h2 r3
  have hrun := run_cons_some ratArith toyLib 501 Event.clickAdd _
    (initialState ToyExpr "a" 0 1 "") s1 _ _ h1 r2
  obtain ⟨-, hn, hlog, -⟩ :=
    colours_follow_counter ratArith toyLib 501 _ _ _ _ rfl hrun
  exact ⟨_, _, hrun, hn, hlog⟩

/-! ## The sampler -/

theorem filterMap_eq_map_of_some {α β : Type} (f : α → Option β) (g : α → β) :
    ∀ (l : List α), (∀ a ∈ l, f a = some (g a)) → l.filterMap f = l.map g := by
  intro l
  induction l with
  | nil => intro _; rfl
  | cons a l ih =>
    intro h
    rw [List.filterMap_cons, h a (List.mem_cons_self a l), List.map_cons,
      ih (fun b hb => h b (List.mem_cons_of_mem a hb))]

theorem gridPoint_zero (xMin xMax : ℚ) (n : Nat) : gridPoint xMin xMax n 0 = xMin := by
  simp [gridPoint]

theorem gridPoint_last (xMin xMax : ℚ) (n : Nat) (hn : 1 ≤ n) :
    gridPoint xMin xMax n n = xMax := by
  have hn0 : (n : ℚ) ≠ 0 := by exact_mod_cast (by omega : n ≠ 0)
  unfold gridPoint
  field_simp

theorem gridPoint_lt (xMin xMax : ℚ) (n : Nat) (hdom : xMin < xMax) (hn : 1 ≤ n) (i j : Nat)
    (hij : i < j) : gridPoint xMin xMax n i < gridPoint xMin xMax n j := by
  have hnpos : (0 : ℚ) < n := by exact_mod_cast (by omega : 0 < n)
  have hstep : 0 < (xMax - xMin) / n := div_pos (by linarith) hnpos
  have hq : (i : ℚ) < (j : ℚ) := by exact_mod_cast hij
  unfold gridPoint
  nlinarith

theorem gridSeries_length_le {E V : Type} (lib : MathLib ℚ E V) (c : E) (xMin xMax : ℚ)
    (n : Nat) : (gridSeries lib c xMin xMax n).length ≤ n + 1 := by
  unfold gridSeries
  have h := List.length_filterMap_le
    (fun i => validPoint lib c (gridPoint xMin xMax n i)) (List.range (n + 1))
  simpa using h

theorem validPoint_of_num {F E V : Type} (lib : MathLib F E V) (c : E) (x q : F)
    (h : lib.evaluateAt c x = .ok (.num q)) : validPoint lib c x = some ⟨x, .num q⟩ := by
  simp [validPoint, h, isNaN, isFinite]

/-- A scan point contributes a sample exactly when its evaluation does not throw and passes
the test `!isNaN(y) && isFinite(y)`; the sample is the pair of the point and the result. -/
theorem validPoint_eq_some_iff {F E V : Type} (lib : MathLib F E V) (c : E) (x : F)
    (p : Point F) :
    validPoint lib c x = some p ↔
      p.x = x ∧ lib.evaluateAt c x = .ok p.y ∧ isNaN p.y = false ∧ isFinite p.y = true := by
  obtain ⟨px, py⟩ := p
  unfold validPoint
  cases hy : lib.evaluateAt c x with
  | error m =>
    constructor
    · intro h; cases h
    · rintro ⟨-, h, -⟩; cases h
  | ok y =>
    by_cases hv : isNaN y = true ∨ isFinite y = false
    · simp only [if_pos hv]
      constructor
      · intro h; cases h
      · rintro ⟨-, h2, h3, h4⟩
        have hyy : y = py := Except.ok.inj h2
        subst hyy
        rcases hv with hv | hv
        · rw [h3] at hv; cases hv
        · rw [h4] at hv; cases hv
    · simp only [if_neg hv]
      have hn : isNaN y = false := by
        cases h : isNaN y with
        | false => rfl
        | true => exact absurd (Or.inl h) hv
      have hf : isFinite y = true := by
        cases h : isFinite y with
        | true => rfl
        | false => exact absurd (Or.inr h) hv
      constructor
      · intro h
        have h1 := Option.some.inj h
        have hx : x = px := congrArg Point.x h1
        have hyy : y = py := congrArg Point.y h1
        subst hx; subst hyy
        exact ⟨rfl, rfl, hn, hf⟩
      · rintro ⟨h1, h2, -, -⟩
        have hyy : y = py := Except.ok.inj h2
        have hx : px = x := h1
        subst hyy; subst hx
        rfl

/-- When every grid evaluation is finite the series is the whole grid, point by point. -/
theorem gridSeries_of_finite {E V : Type} (lib : MathLib ℚ E V) (c : E) (xMin xMax : ℚ)
    (n : Nat)
    (hfin : ∀ i, i ≤ n → ∃ q, lib.evaluateAt c (gridPoint xMin xMax n i) = .ok (.num q)) :
    ∃ ys : Nat → ℚ,
      (∀ i, i ≤ n → lib.evaluateAt c (gridPoint xMin xMax n i) = .ok (.num (ys i))) ∧
      gridSeries lib c xMin xMax n =
        (List.range (n + 1)).map (fun i => ⟨gridPoint xMin xMax n i, .num (ys i)⟩) := by
  classical
  refine ⟨fun i => if h : i ≤ n then (hfin i h).choose else 0, fun i hi => ?_, ?_⟩
  · simp only [dif_pos hi]
    exact (hfin i hi).choose_spec
  · unfold gridSeries
    apply filterMap_eq_map_of_some
    intro i hi
    have hi2 : i ≤ n := by
      have := List.mem_range.mp hi
      omega
    simp only [dif_pos hi2]
    exact validPoint_of_num lib c _ _ (hfin i hi2).choose_spec

/-- C5: over exact arithmetic, for every domain with `xMin < xMax`, every `n >= 1` and every
evaluator that returns a finite value at every grid point, the sampling loop with
`step = (xMax - xMin) / n` returns, once allowed its `n + 1` iterations, exactly `n + 1` samples;
the `i`-th sample (`i = 0 .. n`) has `x = xMin + i * step` and `y` the evaluator's value at that
`x`; the `x`-values are strictly ascending, the first is `xMin` and the last is `xMax`. -/
theorem samplePoints_finite_evaluator {E V : Type} (lib : MathLib ℚ E V) (c : E)
    (xMin xMax : ℚ) (n : Nat) (hdom : xMin < xMax) (hn : 1 ≤ n)
    (hfin : ∀ i : Nat, i ≤ n →
      ∃ q, lib.evaluateAt c (xMin + (i : ℚ) * ((xMax - xMin) / n)) = .ok (.num q)) :
    ∃ pts : List (Point ℚ),
      (∀ fuel, n + 1 ≤ fuel → samplePoints ratArith lib c xMin xMax n fuel = some pts) ∧
      pts.length = n + 1 ∧
      (∀ (i : Nat) (hi : i < pts.length),
        (pts.get ⟨i, hi⟩).x = xMin + (i : ℚ) * ((xMax - xMin) / n) ∧
        lib.evaluateAt c (pts.get ⟨i, hi⟩).x = .ok (pts.get ⟨i, hi⟩).y) ∧
      List.Pairwise (fun p q => p.x < q.x) pts ∧
      pts.head?.map (fun p => p.x) = some xMin ∧
      pts.getLast?.map (fun p => p.x) = some xMax := by
  obtain ⟨ys, hys, hser⟩ := gridSeries_of_finite lib c xMin xMax n hfin
  refine ⟨gridSeries lib c xMin xMax n,
    fun fuel hfuel => samplePoints_eq lib c xMin xMax n fuel hdom hn hfuel, ?_, ?_, ?_, ?_, ?_⟩
  · simp [hser]
  · intro i hi
    have hi2 : i < n + 1 := by simpa [hser] using hi
    have hget : (gridSeries lib c xMin xMax n).get ⟨i, hi⟩ =
        ⟨gridPoint xMin xMax n i, .num (ys i)⟩ := by
      simp [hser]
    rw [hget]
    exact ⟨rfl, hys i (by omega)⟩
  · rw [hser, List.pairwise_map]
    exact List.Pairwise.imp (fun {i j} hij => gridPoint_lt xMin xMax n hdom hn i j hij)
      (List.pairwise_lt_range (n + 1))
  · rw [hser, List.range_succ_eq_map]
    simp [gridPoint_zero]
  · rw [hser, List.range_succ]
    simp [gridPoint_last xMin xMax n hn]

theorem samplePoints_finite_evaluator_witness :
    (∃ pts : List (Point ℚ),
      (∀ fuel, 4 + 1 ≤ fuel →
        samplePoints ratArith toyLib ToyExpr.square (-2) 2 4 fuel = some pts) ∧
      pts.length = 4 + 1 ∧
      pts.head?.map (fun p => p.x) = some (-2) ∧ pts.getLast?.map (fun p => p.x) = some 2) ∧
    samplePoints ratArith toyLib ToyExpr.square (-2) 2 4 5 =
      some [⟨-2, .num 4⟩, ⟨-1, .num 1⟩, ⟨0, .num 0⟩, ⟨1, .num 1⟩, ⟨2, .num 4⟩] := by
  constructor
  · obtain ⟨pts, hrun, hlen, -, -, hfirst, hlast⟩ :=
      samplePoints_finite_evaluator toyLib ToyExpr.square (-2) 2 4 (by norm_num) (by decide)
        (fun i _ => ⟨_, rfl⟩)
    exact ⟨pts, hrun, hlen, hfirst, hlast⟩
  · norm_num [samplePoints, forLoop, loopCond, loopBody, ratArith, toyLib, isNaN, isFinite]

/-- C6: for every evaluator and every domain, in every arithmetic, the sampling loop returns
within the budget exactly when the loop condition fails at one of the scan points
`xMin, xMin + step, (xMin + step) + step, ...` it is allowed to visit, and the series is then
exactly the scan points before that one, in scan order, at which the evaluation does not throw
and returns a value that is neither `NaN` nor infinite, each as the pair of `x` and the
evaluator's result at `x`: an evaluation that throws or is not finite drops that scan point
only and never stops the scan.  In exact arithmetic with `xMin < xMax` and `n >= 1` steps the
scan points are the grid `xMin + i * step`, `i = 0 .. n`, and `n + 1` iterations are enough. -/
theorem samplePoints_skips_invalid {E V : Type} :
    (∀ (F : Type) (ar : Arith F) (lib : MathLib F E V) (c : E) (xMin xMax : F) (n fuel : Nat)
        (pts : List (Point F)),
      samplePoints ar lib c xMin xMax n fuel = some pts ↔
        ∃ k, k ≤ fuel ∧
          (∀ i, i < k →
            ar.le (scanPoint ar xMin (ar.div (ar.sub xMax xMin) (ar.ofNat n)) i) xMax = true) ∧
          ar.le (scanPoint ar xMin (ar.div (ar.sub xMax xMin) (ar.ofNat n)) k) xMax = false ∧
          pts = (List.range k).filterMap (fun i =>
            validPoint lib c (scanPoint ar xMin (ar.div (ar.sub xMax xMin) (ar.ofNat n)) i))) ∧
    (∀ (F : Type) (lib : MathLib F E V) (c : E) (x : F) (p : Point F),
      validPoint lib c x = some p ↔
        p.x = x ∧ lib.evaluateAt c x = .ok p.y ∧ isNaN p.y = false ∧ isFinite p.y = true) ∧
    (∀ (lib : MathLib ℚ E V) (c : E) (xMin xMax : ℚ) (n fuel : Nat),
      xMin < xMax → 1 ≤ n → n + 1 ≤ fuel →
      ∃ pts : List (Point ℚ),
        samplePoints ratArith lib c xMin xMax n fuel = some pts ∧
        pts = (List.range (n + 1)).filterMap
          (fun (i : Nat) => validPoint lib c (xMin + (i : ℚ) * ((xMax - xMin) / n))) ∧
        (∀ p : Point ℚ, p ∈ pts ↔
          ∃ i : Nat, i ≤ n ∧ p.x = xMin + (i : ℚ) * ((xMax - xMin) / n) ∧
            lib.evaluateAt c (xMin + (i : ℚ) * ((xMax - xMin) / n)) = .ok p.y ∧
            isNaN p.y = false ∧ isFinite p.y = true)) := by
  refine ⟨fun F ar lib c xMin xMax n fuel pts => ?_,
    fun F lib c x p => validPoint_eq_some_iff lib c x p,
    fun lib c xMin xMax n fuel hdom hn hfuel => ?_⟩
  · unfold samplePoints
    rw [forLoop_eq_some_iff]
    simp only [List.nil_append]
  · refine ⟨gridSeries lib c xMin xMax n, samplePoints_eq lib c xMin xMax n fuel hdom hn hfuel,
      rfl, fun p => ?_⟩
    unfold gridSeries gridPoint
    rw [List.mem_filterMap]
    constructor
    · rintro ⟨i, hi, hp⟩
      obtain ⟨h1, h2, h3, h4⟩ := (validPoint_eq_some_iff lib c _ p).mp hp
      exact ⟨i, by have := List.mem_range.mp hi; omega, h1, h2, h3, h4⟩
    · rintro ⟨i, hi, h1, h2, h3, h4⟩
      exact ⟨i, List.mem_range.mpr (by omega),
        (validPoint_eq_some_iff lib c _ p).mpr ⟨h1, h2, h3, h4⟩⟩

theorem samplePoints_skips_invalid_witness :
    (∃ pts : List (Point ℚ),
      samplePoints ratArith toyLib ToyExpr.reciprocal (-2) 2 4 5 = some pts ∧
      pts = (List.range (4 + 1)).filterMap
        (fun (i : Nat) =>
          validPoint toyLib ToyExpr.reciprocal (-2 + (i : ℚ) * ((2 - (-2)) / (4 : Nat))))) ∧
    toyLib.evaluateAt ToyExpr.reciprocal 0 = .ok .posInf ∧
    samplePoints ratArith toyLib ToyExpr.reciprocal (-2) 2 4 5 =
      some [⟨-2, .num (-1 / 2)⟩, ⟨-1, .num (-1)⟩, ⟨1, .num 1⟩, ⟨2, .num (1 / 2)⟩] := by
  refine ⟨?_, rfl, ?_⟩
  · obtain ⟨pts, hrun, hpts, -⟩ :=
      samplePoints_skips_invalid.2.2 toyLib ToyExpr.reciprocal (-2) 2 4 5 (by norm_num)
        (by decide) (by decide)
    exact ⟨pts, hrun, hpts⟩
  · norm_num [samplePoints, forLoop, loopCond, loopBody, ratArith, toyLib, isNaN, isFinite]

/-- C7: for every evaluator, whether it throws or returns values that are not finite, every
`n >= 1` and every domain with `xMin < xMax`, over exact arithmetic the sampling loop exits
within `n + 1` iterations with a series that does not depend on the budget and has at most
`n + 1` samples; `updatePlot` uses `n = 500`, hence at most 501 samples. -/
theorem samplePoints_terminates {E V : Type} (lib : MathLib ℚ E V) (c : E) (xMin xMax : ℚ)
    (n : Nat) (hdom : xMin < xMax) (hn : 1 ≤ n) :
    ∃ pts : List (Point ℚ),
      (∀ fuel, n + 1 ≤ fuel → samplePoints ratArith lib c xMin xMax n fuel = some pts) ∧
      pts.length ≤ n + 1 ∧
      numPoints = 500 ∧ (n = numPoints → pts.length ≤ 501) := by
  refine ⟨gridSeries lib c xMin xMax n,
    fun fuel hfuel => samplePoints_eq lib c xMin xMax n fuel hdom hn hfuel,
    gridSeries_length_le lib c xMin xMax n, rfl, fun h => ?_⟩
  have hlen := gridSeries_length_le lib c xMin xMax n
  have h500 : n = 500 := h
  omega

theorem samplePoints_terminates_witness :
    ∃ pts : List (Point ℚ),
      (∀ fuel, 500 + 1 ≤ fuel →
        samplePoints ratArith toyLib ToyExpr.symbol (-10) 10 500 fuel = some pts) ∧
      pts.length ≤ 500 + 1 := by
  obtain ⟨pts, hrun, hlen, -⟩ :=
    samplePoints_terminates toyLib ToyExpr.symbol (-10) 10 500 (by norm_num) (by omega)
  exact ⟨pts, hrun, hlen⟩

/-! ## Plot refresh -/

/-- C8: for every registry and every domain, in every arithmetic: what `updatePlot` does is
the same whatever the datasets from before the call; it returns exactly when every scan exits
within the budget; and the state it returns differs in the dataset list only, which has exactly
one dataset per registry entry, in registry order, the `i`-th with label `f(x) = ` followed by
the expression of entry `i`, border colour the colour of entry `i`, and data the sample series
of the evaluator of entry `i` over the current domain with 500 steps, so it is a function of
entry `i` and the domain.  In exact arithmetic with `xMin < xMax` it returns, 501 iterations
per scan being enough, and the data are the valid samples of the 501 grid points. -/
theorem updatePlot_rebuilds_datasets {E V : Type} :
    (∀ (F : Type) (ar : Arith F) (lib : MathLib F E V) (fuel : Nat) (s : State F E),
      (∀ old : List (Dataset F),
        updatePlot ar lib fuel { s with datasets := old } = updatePlot ar lib fuel s) ∧
      ((∃ t, updatePlot ar lib fuel s = some t) ↔
        ∀ func ∈ s.functions,
          ∃ pts, samplePoints ar lib func.compiled s.xMin s.xMax 500 fuel = some pts) ∧
      (∀ t, updatePlot ar lib fuel s = some t →
        t = { s with datasets := t.datasets } ∧
        t.datasets.length = s.functions.length ∧
        ∀ (i : Nat) (hi : i < s.functions.length) (hj : i < t.datasets.length),
          (t.datasets.get ⟨i, hj⟩).label =
            "f(x) = " ++ (s.functions.get ⟨i, hi⟩).expression ∧
          (t.datasets.get ⟨i, hj⟩).borderColor = (s.functions.get ⟨i, hi⟩).color ∧
          samplePoints ar lib (s.functions.get ⟨i, hi⟩).compiled s.xMin s.xMax 500 fuel =
            some (t.datasets.get ⟨i, hj⟩).data)) ∧
    (∀ (lib : MathLib ℚ E V) (fuel : Nat) (s : State ℚ E), s.xMin < s.xMax → 501 ≤ fuel →
      ∃ t, updatePlot ratArith lib fuel s = some t ∧
        t.datasets = s.functions.map (fun func =>
          mkDataset func (gridSeries lib func.compiled s.xMin s.xMax 500))) := by
  constructor
  · intro F ar lib fuel s
    refine ⟨fun old => ?_, updatePlot_isSome_iff ar lib fuel s, fun t ht => ?_⟩
    · unfold updatePlot
      rfl
    · obtain ⟨series, hall, rfl⟩ := (updatePlot_eq_some_iff ar lib fuel s t).mp ht
      have hlen := hall.length_eq
      refine ⟨rfl, by simp [hlen], fun i hi hj => ?_⟩
      have hk : i < series.length := by rw [← hlen]; exact hi
      have hpt := (List.forall₂_iff_get.mp hall).2 i hi hk
      have hget : (List.zipWith mkDataset s.functions series).get ⟨i, hj⟩ =
          mkDataset (s.functions.get ⟨i, hi⟩) (series.get ⟨i, hk⟩) := by
        simp [List.getElem_zipWith]
      simp only at hj ⊢
      rw [hget]
      exact ⟨rfl, rfl, hpt⟩
  · intro lib fuel s hdom hfuel
    have hnp : numPoints = 500 := rfl
    exact ⟨_, updatePlot_eq lib fuel s hdom (by omega), rfl⟩

theorem updatePlot_rebuilds_datasets_witness :
    ∃ t,
      updatePlot ratArith toyLib 501
        { initialState ToyExpr "" (-10) 10 "" with
          functions := [⟨"x^2", ToyExpr.square, "#4285F4"⟩, ⟨"1/x", ToyExpr.reciprocal, "#EA4335"⟩] } =
        some t ∧
      t.datasets.length = 2 := by
  obtain ⟨t, ht, -⟩ :=
    updatePlot_rebuilds_datasets.2 toyLib 501
      { initialState ToyExpr "" (-10) 10 "" with
        functions := [⟨"x^2", ToyExpr.square, "#4285F4"⟩, ⟨"1/x", ToyExpr.reciprocal, "#EA4335"⟩] }
      (by norm_num [initialState]) (le_refl 501)
  exact ⟨t, ht, ((updatePlot_rebuilds_datasets.1 ℚ ratArith toyLib 501 _).2.2 t ht).2.1⟩

theorem iterate_step_zero {E V : Type} (lib : MathLib ℚ E V) (c : E) (st : LoopState ℚ) :
    ∀ n : Nat, ((loopBody ratArith lib c 0)^[n] st).x = st.x := by
  intro n
  induction n with
  | zero => rfl
  | succ k ih =>
    rw [Function.iterate_succ_apply']
    show ((loopBody ratArith lib c 0)^[k] st).x + 0 = st.x
    rw [add_zero, ih]

/-- C10: `updatePlot` does not check the domain it reads.  Over exact arithmetic, with a
non-empty registry: if `xMin > xMax` the loop condition is false at the start, the body runs
zero times and every series is empty; if `xMin = xMax` the step is 0, `x` equals `xMin` after
every number of iterations and the loop condition holds there, so whatever the number of
iterations allowed the scan has not exited and `updatePlot` does not return.  The refresh of a
removal that leaves a non-empty registry (a click in a state `t` whose splice gives the registry
of `s`, on the same domain) therefore never returns when `xMin = xMax`, and returns when `xMin`
and `xMax` differ. -/
theorem updatePlot_unchecked_domain {E V : Type} (lib : MathLib ℚ E V) (s : State ℚ E)
    (hne : s.functions ≠ []) :
    (s.xMax < s.xMin →
      loopCond ratArith s.xMax ⟨s.xMin, []⟩ = false ∧
      ∀ fuel, updatePlot ratArith lib fuel s =
        some { s with datasets := s.functions.map (fun func => mkDataset func []) }) ∧
    (s.xMin = s.xMax →
      (s.xMax - s.xMin) / numPoints = 0 ∧
      (∀ (c : E) (n : Nat),
        ((loopBody ratArith lib c ((s.xMax - s.xMin) / numPoints))^[n] ⟨s.xMin, []⟩).x =
          s.xMin ∧
        loopCond ratArith s.xMax
          ((loopBody ratArith lib c ((s.xMax - s.xMin) / numPoints))^[n] ⟨s.xMin, []⟩) = true ∧
        forLoop ratArith lib c s.xMax ((s.xMax - s.xMin) / numPoints) n ⟨s.xMin, []⟩ = none) ∧
      ∀ fuel, updatePlot ratArith lib fuel s = none) ∧
    (∀ (pos : Nat) (item : FunctionItem) (t : State ℚ E),
      t.functionList.get? pos = some item → t.functions.eraseIdx item.index = s.functions →
      t.xMin = s.xMin → t.xMax = s.xMax →
      (s.xMin = s.xMax → ∀ fuel, removeClick ratArith lib fuel pos t = none) ∧
      (s.xMin ≠ s.xMax → ∀ fuel, 501 ≤ fuel →
        ∃ u, removeClick ratArith lib fuel pos t = some u)) := by
  refine ⟨fun h => ⟨decide_eq_false (not_le.mpr h), fun fuel => updatePlot_reversed lib fuel s h⟩,
    fun h => ?_, fun pos item t hitem hspl hx hy => ⟨fun h fuel => ?_, fun h fuel hfuel => ?_⟩⟩
  · have hstep : (s.xMax - s.xMin) / (numPoints : ℚ) = 0 := by rw [h, sub_self, zero_div]
    refine ⟨hstep, fun c n => ?_, fun fuel => updatePlot_stuck lib fuel s h hne⟩
    rw [hstep]
    have hx := iterate_step_zero lib c ⟨s.xMin, []⟩ n
    refine ⟨hx, ?_, ?_⟩
    · show decide (((loopBody ratArith lib c 0)^[n] ⟨s.xMin, []⟩).x ≤ s.xMax) = true
      rw [hx]
      exact decide_eq_true (le_of_eq h)
    · exact forLoop_stuck lib c s.xMax n ⟨s.xMin, []⟩ (le_of_eq h)
  · unfold removeClick
    simp only [hitem]
    rw [updatePlot_stuck lib fuel]
    · show t.xMin = t.xMax
      rw [hx, hy, h]
    · show t.functions.eraseIdx item.index ≠ []
      rw [hspl]; exact hne
  · unfold removeClick
    simp only [hitem]
    have hnp : numPoints = 500 := rfl
    rcases lt_or_gt_of_ne h with hlt | hgt
    · rw [updatePlot_eq lib fuel]
      · exact ⟨_, rfl⟩
      · show t.xMin < t.xMax
        rw [hx, hy]; exact hlt
      · omega
    · rw [updatePlot_reversed lib fuel]
      · exact ⟨_, rfl⟩
      · show t.xMax < t.xMin
        rw [hx, hy]; exact hgt

theorem updatePlot_unchecked_domain_witness :
    (∀ fuel, updatePlot ratArith toyLib fuel
      { initialState ToyExpr "" 5 5 "" with
        functions := [⟨"x^2", ToyExpr.square, "#4285F4"⟩] } = none) ∧
    (∀ fuel, updatePlot ratArith toyLib fuel
      { initialState ToyExpr "" 5 3 "" with
        functions := [⟨"x^2", ToyExpr.square, "#4285F4"⟩] } =
      some { initialState ToyExpr "" 5 3 "" with
        functions := [⟨"x^2", ToyExpr.square, "#4285F4"⟩],
        datasets := [mkDataset ⟨"x^2", ToyExpr.square, "#4285F4"⟩ []] }) := by
  constructor
  · exact ((updatePlot_unchecked_domain toyLib
      { initialState ToyExpr "" 5 5 "" with
        functions := [⟨"x^2", ToyExpr.square, "#4285F4"⟩] }
      (by simp)).2.1 rfl).2.2
  · exact ((updatePlot_unchecked_domain toyLib
      { initialState ToyExpr "" 5 3 "" with
        functions := [⟨"x^2", ToyExpr.square, "#4285F4"⟩] }
      (by simp)).1 (by norm_num [initialState])).2

/-! ## The calculator -/

/-- What `calculate` returns: it never lets an exception out and changes the result field
only.  A blank text gives the prompt; otherwise the trimmed text is evaluated and converted. -/
theorem calculate_eq {F E V : Type} (lib : MathLib F E V) (s : State F E) :
    calculate lib s = .ok { s with result :=
      (if trim s.calcExpression = "" then "Please enter an expression"
      else
        match lib.evaluate (trim s.calcExpression) with
        | .error message => "Error: " ++ message
        | .ok value =>
          match lib.toStr value with
          | .error message => "Error: " ++ message
          | .ok str => str) } := by
  unfold calculate
  by_cases h : trim s.calcExpression = ""
  · simp only [if_pos h]; rfl
  · simp only [if_neg h]
    cases hv : lib.evaluate (trim s.calcExpression) with
    | error m => rfl
    | ok v =>
      cases hs : lib.toStr v with
      | error m => simp only [bind, Except.bind, hs]; rfl
      | ok str => simp only [bind, Except.bind, hs]; rfl

theorem prompt_ne_error (m : String) : "Please enter an expression" ≠ "Error: " ++ m := by
  intro h
  have h1 := congrArg (fun t : String => t.data.head?) h
  simp [String.data_append] at h1

/-- C9 as stated fails on a blank text.  The one-shot evaluation of the empty text succeeds
(the library returns `undefined`), yet `calculate` does not evaluate: it sets the result field
to the prompt `Please enter an expression`, which is neither the string `undefined` nor
`Error: ` followed by any error text; and it does so for a text of white space as well. -/
theorem calculate_blank_not_delegated :
    toyLib.evaluate "" = .ok none ∧
    calculate toyLib (initialState ToyExpr "" (0 : ℚ) 1 "") =
      .ok { initialState ToyExpr "" (0 : ℚ) 1 "" with result := "Please enter an expression" } ∧
    calculate toyLib (initialState ToyExpr "" (0 : ℚ) 1 "   ") =
      .ok { initialState ToyExpr "" (0 : ℚ) 1 "   " with
        result := "Please enter an expression" } ∧
    "Please enter an expression" ≠ "undefined" ∧
    ∀ m : String, "Please enter an expression" ≠ "Error: " ++ m := by
  refine ⟨rfl, ?_, ?_, by decide, prompt_ne_error⟩
  · rw [calculate_eq]; rfl
  · rw [calculate_eq]; rfl

/-- C9 (amended): for every expression text, `calculate` never lets an exception out and
changes nothing but the result field.  When the trimmed text is empty the result field is
`Please enter an expression`.  Otherwise the trimmed text goes to the one-shot evaluation of the
library: when the evaluation succeeds and its value has a string representation the result
field is that string, and when the evaluation throws it is `Error: ` followed by the error
text. -/
theorem calculate_result {F E V : Type} (lib : MathLib F E V) (s : State F E) :
    ∃ r : String, calculate lib s = .ok { s with result := r } ∧
      (trim s.calcExpression = "" → r = "Please enter an expression") ∧
      (trim s.calcExpression ≠ "" →
        (∀ m, lib.evaluate (trim s.calcExpression) = .error m → r = "Error: " ++ m) ∧
        (∀ v str, lib.evaluate (trim s.calcExpression) = .ok v → lib.toStr v = .ok str →
          r = str)) := by
  refine ⟨_, calculate_eq lib s, fun h => by simp only [if_pos h], fun h => ?_⟩
  simp only [if_neg h]
  exact ⟨fun m hm => by simp only [hm], fun v str hv hs => by simp only [hv, hs]⟩

theorem calculate_result_witness :
    (∃ r : String,
      calculate toyLib (initialState ToyExpr "" (0 : ℚ) 1 " 1+1 ") =
        .ok { initialState ToyExpr "" (0 : ℚ) 1 " 1+1 " with result := r } ∧
      r = "2") ∧
    (∃ r : String,
      calculate toyLib (initialState ToyExpr "" (0 : ℚ) 1 "2+") =
        .ok { initialState ToyExpr "" (0 : ℚ) 1 "2+" with result := r } ∧
      r = "Error: Unexpected end of expression") := by
  constructor
  · obtain ⟨r, hr, -, h⟩ := calculate_result toyLib (initialState ToyExpr "" (0 : ℚ) 1 " 1+1 ")
    exact ⟨r, hr, (h (by decide)).2 (some "2") "2" rfl rfl⟩
  · obtain ⟨r, hr, -, h⟩ := calculate_result toyLib (initialState ToyExpr "" (0 : ℚ) 1 "2+")
    exact ⟨r, hr, (h (by decide)).1 "Unexpected end of expression" rfl⟩

end PlottingCalculator
